import Mathlib

/-!
# Slice rotation engine of the N×N×N cube (`src/cube.js`)

A shallow embedding of `createCube`, `getSlice`, `rotateSlice`, `scrambleCube`,
`solveCube` and `handleSizeChange`.

Modelling conventions.
* In the main embedding JavaScript numbers are exact rationals and angles are counted
  in quarter turns (`Math.PI / 2` is the unit), so that the sine and cosine of every
  angle the program assigns are rational.  This is exact arithmetic: the program
  computes with doubles, where `Math.PI / 2` is not an exact quarter turn and every
  operation rounds.  Statements that depend on the difference are marked as holding in
  exact arithmetic, and the section on double precision follows the positions of the
  pieces in the arithmetic of the program.
* An `Object3D` local transform (position, quaternion, scale) is kept as the affine
  map it composes to: a 3×3 linear part and a translation.
* The scene itself is never transformed, so the world matrix of `cubeGroup` and of
  the pivot is their local matrix; the world matrix of a cubie is the matrix of its
  parent times its own.
* A tween is observed only at its completion, where tween.js assigns the end value
  and then runs the `onComplete` handler.
* `World.trace` is ghost state recording calls, console output and scene changes.
* `handleSizeChange` takes the value of `parseInt(sizeInput.value)` as an argument, an
  integer or `NaN`, and returns what it writes to the input and what it passes on.
-/

namespace Rubiks

/-! ## Vectors, matrices, affine maps -/

/-- A `THREE.Vector3` with exact coordinates. -/
@[ext] structure Vec3 where
  x : ℚ
  y : ℚ
  z : ℚ
deriving DecidableEq

/-- A 3×3 matrix, given by its rows. -/
@[ext] structure Mat3 where
  r1 : Vec3
  r2 : Vec3
  r3 : Vec3
deriving DecidableEq

/-- An affine map `p ↦ lin p + trans`: the upper three rows of a `THREE.Matrix4`. -/
@[ext] structure Affine where
  lin : Mat3
  trans : Vec3
deriving DecidableEq

def Vec3.zero : Vec3 := ⟨0, 0, 0⟩

def Vec3.add (a b : Vec3) : Vec3 := ⟨a.x + b.x, a.y + b.y, a.z + b.z⟩

def Vec3.neg (a : Vec3) : Vec3 := ⟨-a.x, -a.y, -a.z⟩

def Vec3.dot (a b : Vec3) : ℚ := a.x * b.x + a.y * b.y + a.z * b.z

/-- Squared length (`Vector3.lengthSq`). -/
def Vec3.lengthSq (a : Vec3) : ℚ := a.dot a

def Mat3.one : Mat3 := ⟨⟨1, 0, 0⟩, ⟨0, 1, 0⟩, ⟨0, 0, 1⟩⟩

def Mat3.zero : Mat3 := ⟨Vec3.zero, Vec3.zero, Vec3.zero⟩

def Mat3.c1 (m : Mat3) : Vec3 := ⟨m.r1.x, m.r2.x, m.r3.x⟩

def Mat3.c2 (m : Mat3) : Vec3 := ⟨m.r1.y, m.r2.y, m.r3.y⟩

def Mat3.c3 (m : Mat3) : Vec3 := ⟨m.r1.z, m.r2.z, m.r3.z⟩

def Mat3.mulVec (m : Mat3) (v : Vec3) : Vec3 := ⟨m.r1.dot v, m.r2.dot v, m.r3.dot v⟩

def Mat3.mul (a b : Mat3) : Mat3 :=
  ⟨⟨a.r1.dot b.c1, a.r1.dot b.c2, a.r1.dot b.c3⟩,
   ⟨a.r2.dot b.c1, a.r2.dot b.c2, a.r2.dot b.c3⟩,
   ⟨a.r3.dot b.c1, a.r3.dot b.c2, a.r3.dot b.c3⟩⟩

def Mat3.det (m : Mat3) : ℚ :=
  m.r1.x * (m.r2.y * m.r3.z - m.r2.z * m.r3.y)
    - m.r1.y * (m.r2.x * m.r3.z - m.r2.z * m.r3.x)
    + m.r1.z * (m.r2.x * m.r3.y - m.r2.y * m.r3.x)

/-- Inverse by cofactors; the zero matrix when the determinant is zero
(`Matrix4.invert` does the same). -/
def Mat3.inv (m : Mat3) : Mat3 :=
  let d := m.det
  if d = 0 then Mat3.zero else
    ⟨⟨(m.r2.y * m.r3.z - m.r2.z * m.r3.y) / d, (m.r1.z * m.r3.y - m.r1.y * m.r3.z) / d,
        (m.r1.y * m.r2.z - m.r1.z * m.r2.y) / d⟩,
     ⟨(m.r2.z * m.r3.x - m.r2.x * m.r3.z) / d, (m.r1.x * m.r3.z - m.r1.z * m.r3.x) / d,
        (m.r1.z * m.r2.x - m.r1.x * m.r2.z) / d⟩,
     ⟨(m.r2.x * m.r3.y - m.r2.y * m.r3.x) / d, (m.r1.y * m.r3.x - m.r1.x * m.r3.y) / d,
        (m.r1.x * m.r2.y - m.r1.y * m.r2.x) / d⟩⟩

def Affine.one : Affine := ⟨Mat3.one, Vec3.zero⟩

/-- Image of a point (`Vector3.applyMatrix4`). -/
def Affine.apply (a : Affine) (p : Vec3) : Vec3 := (a.lin.mulVec p).add a.trans

/-- Composition `a ∘ b` (`Matrix4.multiplyMatrices`). -/
def Affine.mul (a b : Affine) : Affine := ⟨a.lin.mul b.lin, a.apply b.trans⟩

/-- Inverse map (`Matrix4.invert`); degenerate maps go to the zero map. -/
def Affine.inv (a : Affine) : Affine :=
  let i := a.lin.inv
  ⟨i, (i.mulVec a.trans).neg⟩

/-! ## Angles in quarter turns -/

/-- Cosine of `k` quarter turns, exact.  The program takes the cosine of a multiple of
the double `Math.PI / 2`, which is close to this value, not equal to it. -/
def cosQ (k : ℤ) : ℚ :=
  if k % 4 = 0 then 1 else if k % 4 = 2 then -1 else 0

/-- Sine of `k` quarter turns, exact.  The program takes the sine of a multiple of the
double `Math.PI / 2`, which is close to this value, not equal to it. -/
def sinQ (k : ℤ) : ℚ :=
  if k % 4 = 1 then 1 else if k % 4 = 3 then -1 else 0

/-- A `THREE.Euler` (order XYZ) whose angles are whole quarter turns. -/
@[ext] structure Euler where
  x : ℤ
  y : ℤ
  z : ℤ
deriving DecidableEq

/-- The value of the `axis` argument: one of the strings the switch in `getSlice`
knows, or anything else. -/
inductive Axis where
  | x
  | y
  | z
  | other
deriving DecidableEq

/-- Reading `rotation[axis]`; `none` is `undefined`. -/
def Euler.get (e : Euler) : Axis → Option ℤ
  | .x => some e.x
  | .y => some e.y
  | .z => some e.z
  | .other => none

/-- Assigning `rotation[axis] = v`; a name that is not a component changes nothing
that the matrix depends on. -/
def Euler.set (e : Euler) (a : Axis) (v : ℤ) : Euler :=
  match a with
  | .x => { e with x := v }
  | .y => { e with y := v }
  | .z => { e with z := v }
  | .other => e

/-- Rotation matrix of an Euler triple (`Matrix4.makeRotationFromEuler`, order XYZ). -/
def Euler.toMat (r : Euler) : Mat3 :=
  let a := cosQ r.x
  let b := sinQ r.x
  let c := cosQ r.y
  let d := sinQ r.y
  let e := cosQ r.z
  let f := sinQ r.z
  ⟨⟨c * e, -(c * f), d⟩,
   ⟨a * f + b * e * d, a * e - b * f * d, -(b * c)⟩,
   ⟨b * f - a * e * d, b * e + a * f * d, a * c⟩⟩

/-- A `THREE.Group` placed directly in the scene. -/
structure Group where
  position : Vec3
  rotation : Euler
  scale : Vec3
deriving DecidableEq

/-- Result of `new THREE.Group()`. -/
def Group.new : Group := ⟨Vec3.zero, ⟨0, 0, 0⟩, ⟨1, 1, 1⟩⟩

/-- World matrix of a group (`Matrix4.compose`): rotation times scale, then translation. -/
def Group.matrixWorld (g : Group) : Affine :=
  let r := g.rotation.toMat
  ⟨⟨⟨r.r1.x * g.scale.x, r.r1.y * g.scale.y, r.r1.z * g.scale.z⟩,
    ⟨r.r2.x * g.scale.x, r.r2.y * g.scale.y, r.r2.z * g.scale.z⟩,
    ⟨r.r3.x * g.scale.x, r.r3.y * g.scale.y, r.r3.z * g.scale.z⟩⟩, g.position⟩

/-! ## Configuration and state -/

def CUBE_COLORS.FRONT : ℕ := 0xFF0000
def CUBE_COLORS.BACK : ℕ := 0xFFA500
def CUBE_COLORS.UP : ℕ := 0xFFFFFF
def CUBE_COLORS.DOWN : ℕ := 0xFFFF00
def CUBE_COLORS.LEFT : ℕ := 0x0000FF
def CUBE_COLORS.RIGHT : ℕ := 0x008000
def CUBE_COLORS.INNER : ℕ := 0x1A1A1A

def PIECE_GAP : ℚ := 5 / 100

/-- The object a cubie is a child of. -/
inductive Parent where
  | cubeGroup
  | pivot
deriving DecidableEq

/-- One cubie mesh. -/
structure Cubie where
  /-- Colours of the faces +X, -X, +Y, -Y, +Z, -Z. -/
  materials : List ℕ
  /-- Local matrix; its translation is `cubie.position`. -/
  matrix : Affine
  parent : Parent
  originalPos : Vec3
  currentLogicPos : ℕ × ℕ × ℕ
deriving DecidableEq

def Cubie.position (c : Cubie) : Vec3 := c.matrix.trans

/-- One generated scramble move. -/
structure Move where
  axis : Axis
  layerIndex : ℤ
  direction : ℤ
deriving DecidableEq

/-- The arrow function `nextMove` hands to `rotateSlice`, as data: the variables it
closes over. -/
structure Callback where
  moves : List Move
  currentMove : ℕ
  N : ℕ
deriving DecidableEq

/-- The tween started by `rotateSlice`: it drives `pivot.rotation[axis]` to `target`
and then runs the completion handler, which ends by calling `onComplete`. -/
structure Tween where
  axis : Axis
  target : Option ℤ
  onComplete : Option Callback
deriving DecidableEq

/-- Ghost trace entries. -/
inductive Event where
  | rotateSlice (axis : Axis) (layerIndex direction : ℤ) (N : ℕ) (accepted : Bool)
  | warnNoCubies (axis : Axis) (layerIndex : ℤ)
  | pivotAdded
  | pivotRemoved
  | onComplete (cb : Callback)
  | scrambleComplete
  | solving
  | createCube (N : ℕ)
deriving DecidableEq

/-- The module globals the engine reads and writes, with the pending tween. -/
structure World where
  cubeGroup : Group
  cubies : List Cubie
  currentSize : ℕ
  isAnimating : Bool
  pivot : Option Group
  tween : Option Tween
  trace : List Event
deriving DecidableEq

/-- Globals as declared at module load, before `init` runs.  `cubeGroup` is not yet
assigned there; the model holds a fresh group, which `createCube` replaces. -/
def World.initial : World :=
  { cubeGroup := Group.new, cubies := [], currentSize := 3, isAnimating := false,
    pivot := none, tween := none, trace := [] }

/-! ## createCube -/

/-- The `continue` guard of the innermost loop. -/
def skipInner (N x y z : ℕ) : Bool :=
  decide (N > 2) && decide (x > 0) && decide (x < N - 1) && decide (y > 0) && decide (y < N - 1)
    && decide (z > 0) && decide (z < N - 1)

/-- The constant `offset` of `createCube`. -/
def createOffset (N : ℕ) : ℚ :=
  let pieceSize : ℚ := 1
  let totalSize : ℚ := N * pieceSize + (N - 1) * PIECE_GAP
  (totalSize - pieceSize) / 2

/-- The cubie built for grid coordinate `(x, y, z)`. -/
def mkCubie (N x y z : ℕ) : Cubie :=
  let pieceSize : ℚ := 1
  let offset := createOffset N
  let position : Vec3 :=
    ⟨x * (pieceSize + PIECE_GAP) - offset, y * (pieceSize + PIECE_GAP) - offset,
      z * (pieceSize + PIECE_GAP) - offset⟩
  { materials :=
      [ if x = N - 1 then CUBE_COLORS.RIGHT else CUBE_COLORS.INNER,
        if x = 0 then CUBE_COLORS.LEFT else CUBE_COLORS.INNER,
        if y = N - 1 then CUBE_COLORS.UP else CUBE_COLORS.INNER,
        if y = 0 then CUBE_COLORS.DOWN else CUBE_COLORS.INNER,
        if z = N - 1 then CUBE_COLORS.FRONT else CUBE_COLORS.INNER,
        if z = 0 then CUBE_COLORS.BACK else CUBE_COLORS.INNER ],
    matrix := ⟨Mat3.one, position⟩,
    parent := Parent.cubeGroup,
    originalPos := position,
    currentLogicPos := (x, y, z) }

/-- The three nested loops of `createCube`, in push order. -/
def buildCubies (N : ℕ) : List Cubie :=
  (List.range N).flatMap fun x =>
    (List.range N).flatMap fun y =>
      (List.range N).filterMap fun z =>
        if skipInner N x y z then none else some (mkCubie N x y z)

/-- The function `createCube(N)`; camera and controls are left out. -/
def createCube (N : ℕ) (w : World) : World :=
  { w with
    cubeGroup := Group.new,
    cubies := buildCubies N,
    currentSize := N,
    trace := w.trace ++ [Event.createCube N] }

/-! ## getSlice -/

/-- World matrix of a cubie's parent. -/
def parentMatrixWorld (w : World) : Parent → Affine
  | .cubeGroup => w.cubeGroup.matrixWorld
  | .pivot =>
    match w.pivot with
    | some p => p.matrixWorld
    | none => Affine.one

/-- The call `cubie.getWorldPosition(new THREE.Vector3())`. -/
def getWorldPosition (w : World) (cubie : Cubie) : Vec3 :=
  (parentMatrixWorld w cubie.parent).apply cubie.position

/-- The call `cubeGroup.worldToLocal(worldPos)`. -/
def worldToLocal (g : Group) (worldPos : Vec3) : Vec3 :=
  g.matrixWorld.inv.apply worldPos

/-- The `switch (axis)` of `getSlice`; `none` is the `undefined` left in `coord`. -/
def axisCoord : Axis → Vec3 → Option ℚ
  | .x, p => some p.x
  | .y, p => some p.y
  | .z, p => some p.z
  | .other, _ => none

/-- The constant `targetCoord` of `getSlice`. -/
def targetCoord (layerIndex : ℤ) (N : ℕ) : ℚ :=
  let pieceSizeWithGap : ℚ := 1 + PIECE_GAP
  let totalSize : ℚ := N + (N - 1) * PIECE_GAP
  let offset : ℚ := (totalSize - 1) / 2
  layerIndex * pieceSizeWithGap - offset

/-- The test `Math.abs(coord - targetCoord) < tolerance` on one cubie. -/
def inSlice (w : World) (axis : Axis) (layerIndex : ℤ) (N : ℕ) (cubie : Cubie) : Bool :=
  let tolerance : ℚ := 1 / 10
  let worldPos := getWorldPosition w cubie
  let localPos := worldToLocal w.cubeGroup worldPos
  match axisCoord axis localPos with
  | some coord => decide (|coord - targetCoord layerIndex N| < tolerance)
  | none => false

/-- The function `getSlice(axis, layerIndex, N)`. -/
def getSlice (axis : Axis) (layerIndex : ℤ) (N : ℕ) (w : World) : List Cubie :=
  w.cubies.filter (inSlice w axis layerIndex N)

/-! ## rotateSlice -/

/-- The call `target.attach(cubie)` of three.js: the cubie becomes a child of `target`
and its local matrix is premultiplied by `target.matrixWorld⁻¹ * parent.matrixWorld`,
which keeps its world transform.  The product is exact here; three.js forms it in
doubles and splits the result into position, quaternion and scale, which rounds. -/
def attach (w : World) (target : Parent) (cubie : Cubie) : Cubie :=
  let m1 := (parentMatrixWorld w target).inv.mul (parentMatrixWorld w cubie.parent)
  { cubie with matrix := m1.mul cubie.matrix, parent := target }

/-- The function `rotateSlice(axis, layerIndex, direction, N, onComplete)` up to the
start of the tween.  The second component is the callback that the empty-slice branch
calls as its last action (`none` when no call is made); the caller runs its body. -/
def rotateSlice (axis : Axis) (layerIndex direction : ℤ) (N : ℕ)
    (onComplete : Option Callback) (w : World) : World × Option Callback :=
  if w.isAnimating then
    ({ w with trace := w.trace ++ [Event.rotateSlice axis layerIndex direction N false] }, none)
  else
    let w1 : World :=
      { w with
        isAnimating := true,
        trace := w.trace ++ [Event.rotateSlice axis layerIndex direction N true] }
    let sliceCubies := getSlice axis layerIndex N w1
    if sliceCubies.length = 0 then
      ({ w1 with
          isAnimating := false,
          trace := w1.trace ++ [Event.warnNoCubies axis layerIndex]
            ++ (match onComplete with
                | some cb => [Event.onComplete cb]
                | none => []) },
        onComplete)
    else
      let pivot : Group :=
        { position := w1.cubeGroup.position,
          rotation := w1.cubeGroup.rotation,
          scale := w1.cubeGroup.scale }
      let w2 : World := { w1 with pivot := some pivot, trace := w1.trace ++ [Event.pivotAdded] }
      let w3 : World :=
        { w2 with
          cubies := w2.cubies.map fun cubie =>
            if cubie ∈ sliceCubies then attach w2 Parent.pivot cubie else cubie }
      let angle : ℤ := direction
      let target : Option ℤ := (pivot.rotation.get axis).map fun r => r + angle
      ({ w3 with tween := some { axis := axis, target := target, onComplete := onComplete } },
        none)

/-- The moment the pending tween reaches its end: tween.js writes the end value into
`pivot.rotation` and runs the handler given to `.onComplete(...)`.  The cubies in
`sliceCubies` are the children of the pivot, the only objects attached to it.  The
second component is the callback the handler calls as its last action. -/
def tweenComplete (w : World) : World × Option Callback :=
  match w.tween with
  | none => (w, none)
  | some t =>
    let w1 : World :=
      { w with
        tween := none,
        pivot := w.pivot.map fun p =>
          match t.target with
          | some v => { p with rotation := p.rotation.set t.axis v }
          | none => p }
    let w2 : World :=
      { w1 with
        cubies := w1.cubies.map fun cubie =>
          if cubie.parent = Parent.pivot then attach w1 Parent.cubeGroup cubie else cubie }
    ({ w2 with
        pivot := none,
        isAnimating := false,
        trace := w2.trace ++ [Event.pivotRemoved]
          ++ (match t.onComplete with
              | some cb => [Event.onComplete cb]
              | none => []) },
      t.onComplete)

/-- A rotation request followed by the completion of the tween it started. -/
def completeRotation (axis : Axis) (layerIndex direction : ℤ) (N : ℕ)
    (onComplete : Option Callback) (w : World) : World :=
  (tweenComplete (rotateSlice axis layerIndex direction N onComplete w).1).1

/-! ## scrambleCube -/

/-- The inner function `nextMove` of `scrambleCube`, by recursion on the moves not yet
issued, `moves.drop currentMove`; the value of `currentMove` is the number of moves
already issued.  The empty list is the branch `currentMove >= moves.length`.  When
`rotateSlice` called the callback (empty slice), the body of the callback runs here:
`currentMove++` and `nextMove()`.  When it did not (tween started, or call rejected),
`nextMove` returns. -/
def nextMoveFrom (N : ℕ) (moves : List Move) : List Move → World → World
  | [], w => { w with trace := w.trace ++ [Event.scrambleComplete] }
  | move :: rest, w =>
    let currentMove := moves.length - (rest.length + 1)
    match rotateSlice move.axis move.layerIndex move.direction N
        (some { moves := moves, currentMove := currentMove, N := N }) w with
    | (w1, some _) => nextMoveFrom N moves rest w1
    | (w1, none) => w1

/-- The inner function `nextMove` at a given value of `currentMove`. -/
def nextMove (N : ℕ) (moves : List Move) (currentMove : ℕ) (w : World) : World :=
  nextMoveFrom N moves (moves.drop currentMove) w

/-- Body of the arrow function handed to `rotateSlice`. -/
def Callback.run (cb : Callback) (w : World) : World :=
  nextMove cb.N cb.moves (cb.currentMove + 1) w

/-- One animation frame in which the pending tween, if any, completes. -/
def tick (w : World) : World :=
  match tweenComplete w with
  | (w1, some cb) => cb.run w1
  | (w1, none) => w1

/-- The entry `axes[k]` of `['x', 'y', 'z']`. -/
def axesAt (k : ℤ) : Axis :=
  if k = 0 then Axis.x else if k = 1 then Axis.y else if k = 2 then Axis.z else Axis.other

/-- One pass of the generating loop, from three values of `Math.random()`. -/
def genMove (N : ℕ) (r1 r2 r3 : ℚ) : Move :=
  { axis := axesAt ⌊r1 * 3⌋,
    layerIndex := ⌊r2 * N⌋,
    direction := if r3 < 1 / 2 then 1 else -1 }

/-- The list `moves` built by the generating loop; `rand k` is the `k`-th value
`Math.random()` returns. -/
def genMoves (N : ℕ) (rand : ℕ → ℚ) : List Move :=
  let numMoves := N * N * 3
  (List.range numMoves).map fun i => genMove N (rand (3 * i)) (rand (3 * i + 1)) (rand (3 * i + 2))

/-- The function `scrambleCube()`. -/
def scrambleCube (rand : ℕ → ℚ) (w : World) : World :=
  if w.isAnimating then w
  else
    let N := w.currentSize
    let moves := genMoves N rand
    nextMove N moves 0 w

/-! ## Auxiliary notions used in the statements -/

/-- Rotation by `k` quarter turns about a coordinate axis (right-handed, as seen
looking down the axis towards the origin, counter-clockwise for positive `k`). -/
def quarterTurn : Axis → ℤ → Mat3
  | .x, k => ⟨⟨1, 0, 0⟩, ⟨0, cosQ k, -sinQ k⟩, ⟨0, sinQ k, cosQ k⟩⟩
  | .y, k => ⟨⟨cosQ k, 0, sinQ k⟩, ⟨0, 1, 0⟩, ⟨-sinQ k, 0, cosQ k⟩⟩
  | .z, k => ⟨⟨cosQ k, -sinQ k, 0⟩, ⟨sinQ k, cosQ k, 0⟩, ⟨0, 0, 1⟩⟩
  | .other, _ => Mat3.one

/-- Position test that `inSlice` comes down to when the cube root is untransformed
and the cubie hangs from it. -/
def posInSlice (axis : Axis) (layerIndex : ℤ) (N : ℕ) (p : Vec3) : Bool :=
  match axisCoord axis p with
  | some coord => decide (|coord - targetCoord layerIndex N| < 1 / 10)
  | none => false

/-- The state between rotations: lock clear, no tween pending, the cube root as
`createCube` made it, every cubie a child of the cube root. -/
structure Idle (w : World) : Prop where
  lock : w.isAnimating = false
  noTween : w.tween = none
  noPivot : w.pivot = none
  root : w.cubeGroup = Group.new
  parents : ∀ c ∈ w.cubies, c.parent = Parent.cubeGroup

/-- Grid coordinates in the order the loops of `createCube` visit and keep them. -/
def gridList (N : ℕ) : List (ℕ × ℕ × ℕ) :=
  (List.range N).flatMap fun x =>
    (List.range N).flatMap fun y =>
      (List.range N).filterMap fun z =>
        if skipInner N x y z then none else some (x, y, z)

/-- Component of a grid coordinate along an axis. -/
def gridCoord : Axis → ℕ × ℕ × ℕ → Option ℕ
  | .x, g => some g.1
  | .y, g => some g.2.1
  | .z, g => some g.2.2
  | .other, _ => none

/-- The cubie `createCube` builds for a grid coordinate. -/
def cubieAt (N : ℕ) (g : ℕ × ℕ × ℕ) : Cubie := mkCubie N g.1 g.2.1 g.2.2

/-- Integer test that the slice test comes down to on a freshly built cubie. -/
def gridInLayer (axis : Axis) (i : ℤ) (g : ℕ × ℕ × ℕ) : Bool :=
  match gridCoord axis g with
  | some k => decide ((k : ℤ) = i)
  | none => false

/-- A cubie carried along by `k` quarter turns about an axis through the origin of the
cube root: its local matrix is premultiplied by the rotation. -/
def Cubie.turned (axis : Axis) (k : ℤ) (c : Cubie) : Cubie :=
  { c with
    matrix := ⟨(quarterTurn axis k).mul c.matrix.lin, (quarterTurn axis k).mulVec c.position⟩,
    parent := Parent.cubeGroup }

/-- Effect of one completed rotation on a cubie of an idle cube. -/
def turnSlice (axis : Axis) (layerIndex direction : ℤ) (N : ℕ) (c : Cubie) : Cubie :=
  if posInSlice axis layerIndex N c.position then c.turned axis direction else c

/-- Coordinate that `createCube(N)` gives to grid index `k`, on any axis. -/
def layerCoord (N k : ℕ) : ℚ := k * (1 + PIECE_GAP) - createOffset N

/-- A point is the build position of a grid coordinate that `createCube(N)` keeps. -/
def onSurface (N : ℕ) (p : Vec3) : Prop :=
  ∃ x y z : ℕ, x < N ∧ y < N ∧ z < N ∧ skipInner N x y z = false
    ∧ p = ⟨layerCoord N x, layerCoord N y, layerCoord N z⟩

/-- Positions of the pieces, in registry order. -/
def positions (w : World) : List Vec3 := w.cubies.map Cubie.position

/-- Effect of one completed rotation on the position of a piece of an idle cube. -/
def turnPos (axis : Axis) (layerIndex direction : ℤ) (N : ℕ) (p : Vec3) : Vec3 :=
  if posInSlice axis layerIndex N p then (quarterTurn axis direction).mulVec p else p

/-- The pieces of an idle cube occupy the build positions of size `N`, one piece each. -/
structure Occupies (N : ℕ) (w : World) : Prop where
  idle : Idle w
  nodup : (positions w).Nodup
  mem : ∀ p, p ∈ positions w ↔ onSurface N p

/-- Successive animation frames, in each of which the pending tween completes. -/
def runTicks : ℕ → World → World
  | 0, w => w
  | n + 1, w => runTicks n (tick w)

/-- Trace entries that record a call of `rotateSlice`, a call of the completion
callback, or the end of the scramble. -/
def isCallEvent : Event → Bool
  | .rotateSlice _ _ _ _ _ => true
  | .onComplete _ => true
  | .scrambleComplete => true
  | _ => false

/-- The calls recorded in a trace, in order. -/
def callEvents (t : List Event) : List Event := t.filter isCallEvent

/-- A trace entry is a `rotateSlice` call with the given outcome. -/
def isRotateCall (accepted : Bool) : Event → Bool
  | .rotateSlice _ _ _ _ a => a == accepted
  | _ => false

/-- Number of `rotateSlice` calls recorded in a trace that were accepted
(`accepted = true`) or rejected by the lock (`accepted = false`). -/
def rotateCalls (accepted : Bool) (t : List Event) : ℕ :=
  (t.filter (isRotateCall accepted)).length

/-- The calls a strictly sequential scramble makes for the moves `ms`, which sit at
the indices `k, k+1, ...` of `moves`: for each move an accepted `rotateSlice` call
followed by the call of the callback made for that move. -/
def expectedCalls (N : ℕ) (moves : List Move) : ℕ → List Move → List Event
  | _, [] => []
  | k, m :: ms =>
    Event.rotateSlice m.axis m.layerIndex m.direction N true
      :: Event.onComplete { moves := moves, currentMove := k, N := N }
      :: expectedCalls N moves (k + 1) ms

/-- The scramble is about to call `nextMove` with `currentMove = j`: the lock is clear and
the calls recorded since the trace `T0` are those for the moves before `j`. -/
def Ready (N : ℕ) (moves : List Move) (T0 : List Event) (j : ℕ) (s : World) : Prop :=
  j ≤ moves.length ∧ s.isAnimating = false ∧ s.tween = none
    ∧ callEvents s.trace = T0 ++ expectedCalls N moves 0 (moves.take j)

/-- The rotation for move `j` is in flight. -/
def Pending (N : ℕ) (moves : List Move) (T0 : List Event) (j : ℕ) (s : World) : Prop :=
  ∃ m rest t, moves.drop j = m :: rest ∧ s.isAnimating = true ∧ s.tween = some t
    ∧ t.onComplete = some { moves := moves, currentMove := j, N := N }
    ∧ callEvents s.trace = T0 ++ expectedCalls N moves 0 (moves.take j)
        ++ [Event.rotateSlice m.axis m.layerIndex m.direction N true]

/-- The scramble has ended. -/
def Done (N : ℕ) (moves : List Move) (T0 : List Event) (s : World) : Prop :=
  s.isAnimating = false ∧ s.tween = none
    ∧ callEvents s.trace = T0 ++ expectedCalls N moves 0 moves ++ [Event.scrambleComplete]

/-! ## solveCube and handleSizeChange -/

/-- The function `solveCube()`. -/
def solveCube (w : World) : World :=
  if w.isAnimating then w
  else createCube w.currentSize { w with trace := w.trace ++ [Event.solving] }

/-- The call `Math.min(a, b)` with `b` an integer or `NaN` (`none`): `NaN` if `b` is. -/
def mathMin (a : ℤ) (b : Option ℤ) : Option ℤ := b.map fun v => min a v

/-- The call `Math.max(a, b)` with `b` an integer or `NaN` (`none`): `NaN` if `b` is. -/
def mathMax (a : ℤ) (b : Option ℤ) : Option ℤ := b.map fun v => max a v

/-- What one run of `handleSizeChange` does: the value it writes to `sizeInput.value`
and the argument it passes to `createCube`, if it calls it. -/
inductive SizeOutcome where
  /-- Lock held: the input is reset to `currentSize` and the handler returns. -/
  | rejected (inputValue : ℕ)
  /-- The clamped size is `currentSize`: nothing is rebuilt. -/
  | unchanged (inputValue : Option ℤ)
  /-- The handler calls `createCube(N)`. -/
  | createCube (inputValue : Option ℤ) (N : Option ℤ)
deriving DecidableEq

/-- The function `handleSizeChange()`.  `parsed` is the value of
`parseInt(sizeInput.value)`: an integer, or `none` for `NaN`.  The test
`newSize !== currentSize` is true for `NaN`. -/
def handleSizeChange (parsed : Option ℤ) (w : World) : SizeOutcome :=
  if w.isAnimating then SizeOutcome.rejected w.currentSize
  else
    let newSize := parsed
    let newSize := mathMax 2 (mathMin 10 newSize)
    if newSize ≠ some (w.currentSize : ℤ) then SizeOutcome.createCube newSize newSize
    else SizeOutcome.unchanged newSize

/-- The globals after a run of `handleSizeChange`.  The result is `none` when
`createCube` was called with something that is no natural number (`NaN`): the record
`World` has no value for the state that call leaves. -/
def SizeOutcome.world (o : SizeOutcome) (w : World) : Option World :=
  match o with
  | .rejected _ => some w
  | .unchanged _ => some w
  | .createCube _ (some n) => if 0 ≤ n then some (Rubiks.createCube n.toNat w) else none
  | .createCube _ none => none

/-- The argument with which a run of `handleSizeChange` calls `createCube`, if it does. -/
def SizeOutcome.createCubeArg : SizeOutcome → Option (Option ℤ)
  | .createCube _ N => some N
  | _ => none

/-! ## Notions used in the statements about the build -/

/-- Slice selection as the specification words it: the pieces whose build-time grid
coordinate along the axis is the layer index. -/
def sliceByGrid (axis : Axis) (layerIndex : ℤ) (w : World) : List Cubie :=
  w.cubies.filter fun c => gridInLayer axis layerIndex c.currentLogicPos

/-- Number of faces of a cubie that carry a puzzle colour, that is, not `INNER`. -/
def puzzleFaces (c : Cubie) : ℕ :=
  (c.materials.filter fun col => decide (col ≠ CUBE_COLORS.INNER)).length

/-- States reached from a freshly built cube of size `N` by completed rotations with
a proper axis, a layer in `[0, N)` and direction `±1`. -/
inductive Reached (N : ℕ) : World → Prop where
  | build (w0 : World) (h0 : Idle w0) : Reached N (createCube N w0)
  | rotate (w : World) (axis : Axis) (layerIndex direction : ℤ) (cb : Option Callback)
      (hw : Reached N w) (ha : axis ≠ Axis.other) (hl : 0 ≤ layerIndex ∧ layerIndex < N)
      (hd : direction = 1 ∨ direction = -1) :
      Reached N (completeRotation axis layerIndex direction N cb w)

/-! ## Double precision

The program computes with IEEE 754 doubles.  This section follows the positions of the
pieces through `createCube`, `getSlice` and a completed `rotateSlice` in that
arithmetic: every sum and product is rounded to 53 significant bits, to nearest, ties
to even.  Overflow, underflow and the sign of zero are left out; the magnitudes met
here stay far inside the normal range.  The three.js functions involved
(`Quaternion.setFromEuler`, `Matrix4.compose`, `Matrix4.multiplyMatrices`) are written
out operation by operation. -/

/-- A binary fraction `mant * 2 ^ expo`, in normal form: `mant` odd, or `0 * 2 ^ 0`. -/
structure Dyadic where
  mant : ℤ
  expo : ℤ
deriving DecidableEq

/-- Number of binary digits of `n`, for `n` below `2 ^ fuel`. -/
def bitLengthAux : ℕ → ℕ → ℕ
  | 0, _ => 0
  | fuel + 1, n => if n = 0 then 0 else bitLengthAux fuel (n / 2) + 1

/-- Number of binary digits of `n` (numbers below `2 ^ 512`). -/
def bitLength (n : ℕ) : ℕ := bitLengthAux 512 n

/-- Removing factors of two from the mantissa. -/
def Dyadic.normAux : ℕ → ℤ → ℤ → Dyadic
  | 0, m, e => ⟨m, e⟩
  | fuel + 1, m, e =>
    if m = 0 then ⟨0, 0⟩
    else if m % 2 = 0 then Dyadic.normAux fuel (m / 2) (e + 1)
    else ⟨m, e⟩

/-- The number `m * 2 ^ e` in normal form (mantissas below `2 ^ 512`). -/
def Dyadic.ofScaled (m e : ℤ) : Dyadic := Dyadic.normAux 512 m e

/-- Exact sum. -/
def Dyadic.add (a b : Dyadic) : Dyadic :=
  let e := min a.expo b.expo
  Dyadic.ofScaled (a.mant * 2 ^ (a.expo - e).toNat + b.mant * 2 ^ (b.expo - e).toNat) e

/-- Exact product. -/
def Dyadic.mul (a b : Dyadic) : Dyadic := Dyadic.ofScaled (a.mant * b.mant) (a.expo + b.expo)

/-- Exact negation. -/
def Dyadic.neg (a : Dyadic) : Dyadic := ⟨-a.mant, a.expo⟩

/-- Absolute value (`Math.abs`). -/
def Dyadic.abs (a : Dyadic) : Dyadic := ⟨|a.mant|, a.expo⟩

/-- Exact halving (`/ 2`). -/
def Dyadic.half (a : Dyadic) : Dyadic := if a.mant = 0 then a else ⟨a.mant, a.expo - 1⟩

/-- The comparison `a < b`. -/
def Dyadic.lt (a b : Dyadic) : Bool :=
  let e := min a.expo b.expo
  decide (a.mant * 2 ^ (a.expo - e).toNat < b.mant * 2 ^ (b.expo - e).toNat)

/-- Rounding of `n * 2 ^ e`, where `sticky` tells that the exact value lies strictly
above it (by less than `2 ^ e`), to 53 significant bits: to nearest, ties to even. -/
def roundNat (n : ℕ) (sticky : Bool) (e : ℤ) : Dyadic :=
  let len := bitLength n
  if len ≤ 53 then Dyadic.ofScaled n e
  else
    let sh := len - 53
    let q := n / 2 ^ sh
    let r := n % 2 ^ sh
    let half := 2 ^ (sh - 1)
    let up : Bool := decide (half < r) || (decide (r = half) && (sticky || decide (q % 2 = 1)))
    Dyadic.ofScaled (if up then (q : ℤ) + 1 else (q : ℤ)) (e + sh)

/-- The double nearest to a binary fraction. -/
def Dyadic.round (a : Dyadic) : Dyadic :=
  let r := roundNat a.mant.natAbs false a.expo
  if a.mant < 0 then r.neg else r

/-- The double sum `a + b`. -/
def fadd (a b : Dyadic) : Dyadic := (a.add b).round

/-- The double difference `a - b`. -/
def fsub (a b : Dyadic) : Dyadic := (a.add b.neg).round

/-- The double product `a * b`. -/
def fmul (a b : Dyadic) : Dyadic := (a.mul b).round

/-- The double that an integer literal or loop counter denotes. -/
def Dyadic.ofInt (n : ℤ) : Dyadic := (Dyadic.ofScaled n 0).round

/-- The double that the decimal literal `num / den` denotes (`num`, `den` positive). -/
def Dyadic.ofFrac (num den : ℕ) : Dyadic :=
  let k := bitLength den + 64
  roundNat (num * 2 ^ k / den) (decide (num * 2 ^ k % den ≠ 0)) (-(k : ℤ))

/-- The constant `PIECE_GAP = 0.05` as a double. -/
def PIECE_GAP_D : Dyadic := Dyadic.ofFrac 5 100

/-- The value `Math.sin(Math.PI / 2 / 2)`, which prints as `0.7071067811865475`. -/
def sinEighth : Dyadic := Dyadic.ofScaled 6369051672525772 (-53)

/-- The value `Math.cos(Math.PI / 2 / 2)`, which prints as `0.7071067811865476`. -/
def cosEighth : Dyadic := Dyadic.ofScaled 6369051672525773 (-53)

/-- A `THREE.Vector3` of doubles. -/
structure DVec where
  x : Dyadic
  y : Dyadic
  z : Dyadic
deriving DecidableEq

/-- The position `createCube(N)` gives the piece of a grid coordinate, in doubles. -/
def positionD (N : ℕ) (g : ℕ × ℕ × ℕ) : DVec :=
  let pieceSize := Dyadic.ofInt 1
  let totalSize := fadd (fmul (Dyadic.ofInt N) pieceSize) (fmul (Dyadic.ofInt (N - 1)) PIECE_GAP_D)
  let offset := (fsub totalSize pieceSize).half
  ⟨fsub (fmul (Dyadic.ofInt g.1) (fadd pieceSize PIECE_GAP_D)) offset,
   fsub (fmul (Dyadic.ofInt g.2.1) (fadd pieceSize PIECE_GAP_D)) offset,
   fsub (fmul (Dyadic.ofInt g.2.2) (fadd pieceSize PIECE_GAP_D)) offset⟩

/-- Positions of the pieces after `createCube(N)`, in registry order, in doubles. -/
def buildPositionsD (N : ℕ) : List DVec := (gridList N).map (positionD N)

/-- The test of `getSlice` on the position of a piece that is a child of the
untransformed cube root, in doubles (the two changes of frame multiply by `1` and add
`0`, which is exact). -/
def inSliceD (axis : Axis) (layerIndex : ℤ) (N : ℕ) (p : DVec) : Bool :=
  let tolerance := Dyadic.ofFrac 1 10
  let pieceSizeWithGap := fadd (Dyadic.ofInt 1) PIECE_GAP_D
  let totalSize := fadd (Dyadic.ofInt N) (fmul (Dyadic.ofInt (N - 1)) PIECE_GAP_D)
  let offset := (fsub totalSize (Dyadic.ofInt 1)).half
  let targetCoord := fsub (fmul (Dyadic.ofInt layerIndex) pieceSizeWithGap) offset
  match axis with
  | .x => (fsub p.x targetCoord).abs.lt tolerance
  | .y => (fsub p.y targetCoord).abs.lt tolerance
  | .z => (fsub p.z targetCoord).abs.lt tolerance
  | .other => false

/-- The two directions `scrambleCube` passes: `+1` and `-1`. -/
inductive Quarter where
  | plus
  | minus
deriving DecidableEq

/-- Sine and cosine of half the Euler angle on one axis: of `±Math.PI / 2 / 2` on the
axis of the rotation (`Math.sin` is odd), of `0` on the others. -/
def halfAngle (axis rotated : Axis) (direction : Quarter) : Dyadic × Dyadic :=
  if axis = rotated then
    match direction with
    | .plus => (sinEighth, cosEighth)
    | .minus => (sinEighth.neg, cosEighth)
  else (Dyadic.ofInt 0, Dyadic.ofInt 1)

/-- A quaternion of doubles. -/
structure DQuat where
  x : Dyadic
  y : Dyadic
  z : Dyadic
  w : Dyadic
deriving DecidableEq

/-- The quaternion of the pivot once the tween has ended (`Quaternion.setFromEuler`,
order XYZ). -/
def pivotQuaternionD (rotated : Axis) (direction : Quarter) : DQuat :=
  let s1 := (halfAngle Axis.x rotated direction).1
  let c1 := (halfAngle Axis.x rotated direction).2
  let s2 := (halfAngle Axis.y rotated direction).1
  let c2 := (halfAngle Axis.y rotated direction).2
  let s3 := (halfAngle Axis.z rotated direction).1
  let c3 := (halfAngle Axis.z rotated direction).2
  ⟨fadd (fmul (fmul s1 c2) c3) (fmul (fmul c1 s2) s3),
   fsub (fmul (fmul c1 s2) c3) (fmul (fmul s1 c2) s3),
   fadd (fmul (fmul c1 c2) s3) (fmul (fmul s1 s2) c3),
   fsub (fmul (fmul c1 c2) c3) (fmul (fmul s1 s2) s3)⟩

/-- Rows of the upper 3×4 block of a `THREE.Matrix4` of doubles; the fourth entry of a
row is the translation. -/
structure DMat where
  a11 : Dyadic
  a12 : Dyadic
  a13 : Dyadic
  a14 : Dyadic
  a21 : Dyadic
  a22 : Dyadic
  a23 : Dyadic
  a24 : Dyadic
  a31 : Dyadic
  a32 : Dyadic
  a33 : Dyadic
  a34 : Dyadic
deriving DecidableEq

/-- The call `Matrix4.compose(position, quaternion, scale)`. -/
def composeD (position : DVec) (q : DQuat) (scale : DVec) : DMat :=
  let x2 := fadd q.x q.x
  let y2 := fadd q.y q.y
  let z2 := fadd q.z q.z
  let xx := fmul q.x x2
  let xy := fmul q.x y2
  let xz := fmul q.x z2
  let yy := fmul q.y y2
  let yz := fmul q.y z2
  let zz := fmul q.z z2
  let wx := fmul q.w x2
  let wy := fmul q.w y2
  let wz := fmul q.w z2
  let one := Dyadic.ofInt 1
  { a11 := fmul (fsub one (fadd yy zz)) scale.x,
    a21 := fmul (fadd xy wz) scale.x,
    a31 := fmul (fsub xz wy) scale.x,
    a12 := fmul (fsub xy wz) scale.y,
    a22 := fmul (fsub one (fadd xx zz)) scale.y,
    a32 := fmul (fadd yz wx) scale.y,
    a13 := fmul (fadd xz wy) scale.z,
    a23 := fmul (fsub yz wx) scale.z,
    a33 := fmul (fsub one (fadd xx yy)) scale.z,
    a14 := position.x,
    a24 := position.y,
    a34 := position.z }

/-- World matrix of the pivot at the end of the tween: position `0`, scale `1`. -/
def pivotMatrixD (rotated : Axis) (direction : Quarter) : DMat :=
  composeD ⟨Dyadic.ofInt 0, Dyadic.ofInt 0, Dyadic.ofInt 0⟩ (pivotQuaternionD rotated direction)
    ⟨Dyadic.ofInt 1, Dyadic.ofInt 1, Dyadic.ofInt 1⟩

/-- The position `cubeGroup.attach(cubie)` leaves in `cubie.position`: the translation
column of `pivot.matrixWorld * cubie.matrix` (`Matrix4.multiplyMatrices`), where the
translation column of `cubie.matrix` is the position before.  The other factor,
the inverse of the world matrix of the cube root, is the identity and changes nothing;
so does the earlier `pivot.attach(cubie)`, made while the pivot is untransformed. -/
def attachPositionD (a : DMat) (p : DVec) : DVec :=
  let one := Dyadic.ofInt 1
  ⟨fadd (fadd (fadd (fmul a.a11 p.x) (fmul a.a12 p.y)) (fmul a.a13 p.z)) (fmul a.a14 one),
   fadd (fadd (fadd (fmul a.a21 p.x) (fmul a.a22 p.y)) (fmul a.a23 p.z)) (fmul a.a24 one),
   fadd (fadd (fadd (fmul a.a31 p.x) (fmul a.a32 p.y)) (fmul a.a33 p.z)) (fmul a.a34 one)⟩

/-- Positions of the pieces after a completed `rotateSlice` with direction `±1` that
started with the lock clear, in doubles; `ps` are the positions before. -/
def rotateSliceD (axis : Axis) (layerIndex : ℤ) (direction : Quarter) (N : ℕ)
    (ps : List DVec) : List DVec :=
  ps.map fun p =>
    if inSliceD axis layerIndex N p then attachPositionD (pivotMatrixD axis direction) p else p

/-- The exact value of `x * x + y * y + z * z`: the squared distance from the origin. -/
def DVec.lengthSqExact (p : DVec) : Dyadic :=
  ((p.x.mul p.x).add (p.y.mul p.y)).add (p.z.mul p.z)

/-- The call `Vector3.lengthSq()`: `x * x + y * y + z * z` in doubles. -/
def DVec.lengthSqD (p : DVec) : Dyadic :=
  fadd (fadd (fmul p.x p.x) (fmul p.y p.y)) (fmul p.z p.z)

/-- The direction as the number `rotateSlice` receives. -/
def Quarter.toInt : Quarter → ℤ
  | .plus => 1
  | .minus => -1

/-- Image of a point under the exact quarter turn about an axis in the given direction:
the point `R p` of the exact rotation `R`, a signed permutation of the coordinates. -/
def exactTurnD (axis : Axis) (direction : Quarter) (p : DVec) : DVec :=
  match axis, direction with
  | .x, .plus => ⟨p.x, p.z.neg, p.y⟩
  | .x, .minus => ⟨p.x, p.z, p.y.neg⟩
  | .y, .plus => ⟨p.z, p.y, p.x.neg⟩
  | .y, .minus => ⟨p.z.neg, p.y, p.x⟩
  | .z, .plus => ⟨p.y.neg, p.x, p.z⟩
  | .z, .minus => ⟨p.y, p.x.neg, p.z⟩
  | .other, _ => p

/-- The rational number a binary fraction stands for. -/
def Dyadic.toRat (a : Dyadic) : ℚ := a.mant * 2 ^ a.expo

/-- A vector of doubles as a vector of rationals. -/
def DVec.toVec3 (p : DVec) : Vec3 := ⟨p.x.toRat, p.y.toRat, p.z.toRat⟩

/-! ## Basic facts -/

@[simp] theorem cosQ_zero : cosQ 0 = 1 := by simp [cosQ]
@[simp] theorem sinQ_zero : sinQ 0 = 0 := by simp [sinQ]

theorem matrixWorld_new : Group.new.matrixWorld = Affine.one := by
  simp [Group.matrixWorld, Group.new, Euler.toMat, Affine.one, Mat3.one, Vec3.zero]

theorem mat3_inv_one : Mat3.one.inv = Mat3.one := by
  unfold Mat3.inv Mat3.det Mat3.one
  norm_num

theorem affine_inv_one : Affine.one.inv = Affine.one := by
  simp only [Affine.inv, Affine.one, mat3_inv_one]
  simp [Mat3.mulVec, Vec3.dot, Vec3.zero, Vec3.neg, Mat3.one]

@[simp] theorem affine_one_apply (p : Vec3) : Affine.one.apply p = p := by
  simp [Affine.apply, Affine.one, Mat3.mulVec, Vec3.dot, Vec3.zero, Vec3.add, Mat3.one]

@[simp] theorem affine_one_mul (a : Affine) : Affine.one.mul a = a := by
  simp [Affine.mul, affine_one_apply]
  simp [Affine.one, Mat3.mul, Mat3.one, Vec3.dot, Mat3.c1, Mat3.c2, Mat3.c3]

theorem inSlice_root (w : World) (axis : Axis) (i : ℤ) (N : ℕ) (c : Cubie)
    (hg : w.cubeGroup = Group.new) (hp : c.parent = Parent.cubeGroup) :
    inSlice w axis i N c = posInSlice axis i N c.position := by
  cases axis <;>
  simp [inSlice, posInSlice, getWorldPosition, worldToLocal, parentMatrixWorld, hg, hp,
    matrixWorld_new, affine_inv_one, axisCoord]

/-! ### The freshly built cube -/

theorem buildCubies_eq (N : ℕ) : buildCubies N = (gridList N).map (cubieAt N) := by
  unfold buildCubies gridList
  simp only [List.map_flatMap, List.map_filterMap]
  congr 1; funext x; congr 1; funext y; congr 1; funext z
  by_cases h : skipInner N x y z = true <;> simp [h, cubieAt]

theorem mem_gridList (N : ℕ) (g : ℕ × ℕ × ℕ) :
    g ∈ gridList N ↔ g.1 < N ∧ g.2.1 < N ∧ g.2.2 < N ∧ skipInner N g.1 g.2.1 g.2.2 = false := by
  obtain ⟨x, y, z⟩ := g
  simp only [gridList, List.mem_flatMap, List.mem_range, List.mem_filterMap]
  constructor
  · rintro ⟨a, ha, b, hb, c, hc, h⟩
    by_cases hs : skipInner N a b c = true
    · simp [hs] at h
    · simp only [hs] at h
      simp only [Bool.false_eq_true, ↓reduceIte, Option.some.injEq, Prod.mk.injEq] at h
      obtain ⟨rfl, rfl, rfl⟩ := h
      simp_all
  · rintro ⟨h1, h2, h3, h4⟩
    exact ⟨x, h1, y, h2, z, h3, by simp_all⟩

theorem abs_layer_lt (k : ℕ) (i : ℤ) (off : ℚ) :
    |(k : ℚ) * (1 + PIECE_GAP) - off - ((i : ℚ) * (1 + PIECE_GAP) - off)| < 1 / 10 ↔ (k : ℤ) = i := by
  have e : (k : ℚ) * (1 + PIECE_GAP) - off - ((i : ℚ) * (1 + PIECE_GAP) - off)
      = (((k : ℤ) - i : ℤ) : ℚ) * (21 / 20) := by
    simp only [PIECE_GAP]; push_cast; ring
  rw [e, abs_mul]
  constructor
  · intro h
    by_contra hne
    have h1 : (1 : ℤ) ≤ |(k : ℤ) - i| := Int.one_le_abs (sub_ne_zero.mpr hne)
    have h2 : (1 : ℚ) ≤ |(((k : ℤ) - i : ℤ) : ℚ)| := by
      rw [← Int.cast_abs]; exact_mod_cast h1
    have h3 : |(21 / 20 : ℚ)| = 21 / 20 := abs_of_pos (by norm_num)
    rw [h3] at h
    nlinarith
  · intro h
    simp [h]

theorem posInSlice_cubieAt (axis : Axis) (i : ℤ) (N : ℕ) (g : ℕ × ℕ × ℕ) :
    posInSlice axis i N (cubieAt N g).position = gridInLayer axis i g := by
  have key : ∀ k : ℕ, decide (|(k : ℚ) * (1 + PIECE_GAP) - createOffset N - targetCoord i N| < 1 / 10)
      = decide ((k : ℤ) = i) := by
    intro k
    have := abs_layer_lt k i (createOffset N)
    have e : targetCoord i N = (i : ℚ) * (1 + PIECE_GAP) - createOffset N := by
      simp [targetCoord, createOffset]
    rw [e]
    exact decide_eq_decide.mpr this
  cases axis <;>
    simp only [posInSlice, gridInLayer, axisCoord, gridCoord, cubieAt, mkCubie, Cubie.position] <;>
    first
      | rfl
      | exact key _

theorem createCube_parents (N : ℕ) (w0 : World) :
    ∀ c ∈ (createCube N w0).cubies, c.parent = Parent.cubeGroup := by
  intro c hc
  simp only [createCube, buildCubies_eq, List.mem_map] at hc
  obtain ⟨g, _, rfl⟩ := hc
  rfl

theorem createCube_idle (N : ℕ) (w0 : World) (h0 : Idle w0) : Idle (createCube N w0) :=
  ⟨h0.lock, h0.noTween, h0.noPivot, rfl, createCube_parents N w0⟩

theorem getSlice_root (axis : Axis) (i : ℤ) (N : ℕ) (w : World)
    (hg : w.cubeGroup = Group.new) (hp : ∀ c ∈ w.cubies, c.parent = Parent.cubeGroup) :
    getSlice axis i N w = w.cubies.filter fun c => posInSlice axis i N c.position := by
  unfold getSlice
  apply List.filter_congr
  intro c hc
  exact inSlice_root w axis i N c hg (hp c hc)

theorem getSlice_idle (axis : Axis) (i : ℤ) (N : ℕ) (w : World) (hw : Idle w) :
    getSlice axis i N w = w.cubies.filter fun c => posInSlice axis i N c.position :=
  getSlice_root axis i N w hw.root hw.parents

theorem getSlice_createCube (axis : Axis) (i : ℤ) (N : ℕ) (w0 : World) :
    getSlice axis i N (createCube N w0)
      = ((gridList N).filter (gridInLayer axis i)).map (cubieAt N) := by
  rw [getSlice_root axis i N _ rfl (createCube_parents N w0)]
  simp only [createCube, buildCubies_eq, List.filter_map]
  congr 1
  apply List.filter_congr
  intro g _
  exact posInSlice_cubieAt axis i N g


set_option maxRecDepth 100000 in
theorem layer_count (N : ℕ) (hN : 2 ≤ N ∧ N ≤ 10) (axis : Axis) (ha : axis ≠ Axis.other)
    (j : ℕ) (hj : j < N) :
    ((gridList N).filter (gridInLayer axis (j : ℤ))).length
      = if j = 0 ∨ j = N - 1 then N ^ 2 else N ^ 2 - (N - 2) ^ 2 := by
  obtain ⟨h1, h2⟩ := hN
  interval_cases N <;> interval_cases j <;> cases axis <;> first | exact absurd rfl ha | decide

/-- C1 (as stated) fails: on the cube built for `N = 3` the middle layer of the x axis
holds 8 pieces, not `3 ^ 2`, because `createCube` leaves out the centre piece. -/
theorem getSlice_fresh_middle_layer_count :
    (getSlice Axis.x 1 3 (createCube 3 World.initial)).length = 8
      ∧ (getSlice Axis.x 1 3 (createCube 3 World.initial)).length ≠ 3 ^ 2 := by
  have h : (getSlice Axis.x 1 3 (createCube 3 World.initial)).length = 8 := by
    rw [getSlice_createCube, List.length_map]
    decide
  exact ⟨h, by rw [h]; decide⟩

/-- C1 (amended): for `N` in `[2,10]`, a proper axis and a layer index in `[0,N)`, the
slice selected on the cube just built by `createCube(N)` has `N ^ 2` pieces when the
layer is an outer one (index `0` or `N - 1`) and `N ^ 2 - (N - 2) ^ 2` pieces when it
is an inner one. -/
theorem getSlice_fresh_count (N : ℕ) (hN : 2 ≤ N ∧ N ≤ 10) (axis : Axis)
    (ha : axis ≠ Axis.other) (layerIndex : ℤ) (hl : 0 ≤ layerIndex ∧ layerIndex < N)
    (w0 : World) :
    (getSlice axis layerIndex N (createCube N w0)).length
      = if layerIndex = 0 ∨ layerIndex = N - 1 then N ^ 2 else N ^ 2 - (N - 2) ^ 2 := by
  obtain ⟨j, rfl⟩ := Int.eq_ofNat_of_zero_le hl.1
  have hj : j < N := by exact_mod_cast hl.2
  rw [getSlice_createCube, List.length_map, layer_count N hN axis ha j hj]
  have e1 : ((j : ℤ) = 0) ↔ j = 0 := by exact_mod_cast Iff.rfl
  have e2 : ((j : ℤ) = (N : ℤ) - 1) ↔ j = N - 1 := by omega
  simp only [e1, e2]

/-- Witness for C1 (amended): the middle layer of the z axis for `N = 3`. -/
theorem getSlice_fresh_count_witness :
    (getSlice Axis.z 1 3 (createCube 3 World.initial)).length
      = if (1 : ℤ) = 0 ∨ (1 : ℤ) = ((3 : ℕ) : ℤ) - 1 then 3 ^ 2 else 3 ^ 2 - (3 - 2) ^ 2 :=
  getSlice_fresh_count 3 (by decide) Axis.z (by decide) 1 (by decide) World.initial


/-! ## Layers partition the freshly built cube -/

theorem filter_lt_append_eq_perm {α : Type} (key : α → ℕ) (n : ℕ) (L : List α) :
    (L.filter (fun a => decide (key a < n)) ++ L.filter (fun a => decide (key a = n))).Perm
      (L.filter fun a => decide (key a < n + 1)) := by
  induction L with
  | nil => simp
  | cons a L ih =>
    rcases Nat.lt_trichotomy (key a) n with h | h | h
    · have h1 : key a < n + 1 := by omega
      have h2 : key a ≠ n := by omega
      simp only [List.filter_cons, h, h1, h2, decide_True, decide_False, ↓reduceIte,
        List.cons_append, Bool.false_eq_true]
      exact List.Perm.cons a ih
    · have h1 : key a < n + 1 := by omega
      have h2 : ¬ key a < n := by omega
      have h3 : decide (key a = n) = true := by simp [h]
      simp only [List.filter_cons, h1, h2, h3, decide_True, decide_False, ↓reduceIte,
        Bool.false_eq_true]
      exact List.perm_middle.trans (List.Perm.cons a ih)
    · have h1 : ¬ key a < n + 1 := by omega
      have h2 : ¬ key a < n := by omega
      have h3 : key a ≠ n := by omega
      simp only [List.filter_cons, h1, h2, h3, decide_False, ↓reduceIte, Bool.false_eq_true]
      exact ih

theorem flatMap_filter_key_perm {α : Type} (key : α → ℕ) (L : List α) (n : ℕ) :
    ((List.range n).flatMap fun i => L.filter fun a => decide (key a = i)).Perm
      (L.filter fun a => decide (key a < n)) := by
  induction n with
  | zero => simp
  | succ n ih =>
    rw [List.range_succ, List.flatMap_append]
    simp only [List.flatMap_cons, List.flatMap_nil, List.append_nil]
    exact (List.Perm.append_right _ ih).trans (filter_lt_append_eq_perm key n L)

theorem gridInLayer_eq (axis : Axis) (ha : axis ≠ Axis.other) (i : ℕ) (g : ℕ × ℕ × ℕ) :
    gridInLayer axis (i : ℤ) g = decide ((gridCoord axis g).getD 0 = i) := by
  cases axis <;> simp [gridInLayer, gridCoord] at ha ⊢

theorem gridCoord_lt (axis : Axis) (N : ℕ) (g : ℕ × ℕ × ℕ) (hg : g ∈ gridList N) (hN : 0 < N) :
    (gridCoord axis g).getD 0 < N := by
  rw [mem_gridList] at hg
  cases axis <;> simp [gridCoord, hg.1, hg.2.1, hg.2.2.1, hN]

theorem targetCoord_sub (i j : ℤ) (N : ℕ) :
    targetCoord i N - targetCoord j N = ((i - j : ℤ) : ℚ) * (21 / 20) := by
  simp only [targetCoord, PIECE_GAP]; push_cast; ring

theorem posInSlice_unique (axis : Axis) (i j : ℤ) (N : ℕ) (p : Vec3)
    (hi : posInSlice axis i N p = true) (hj : posInSlice axis j N p = true) : i = j := by
  unfold posInSlice at hi hj
  cases hc : axisCoord axis p with
  | none => simp [hc] at hi
  | some coord =>
    simp only [hc, decide_eq_true_eq] at hi hj
    by_contra hne
    have h1 : (1 : ℤ) ≤ |i - j| := Int.one_le_abs (sub_ne_zero.mpr hne)
    have h2 : (1 : ℚ) ≤ |((i - j : ℤ) : ℚ)| := by
      rw [← Int.cast_abs]; exact_mod_cast h1
    have h3 : |targetCoord i N - targetCoord j N| = |((i - j : ℤ) : ℚ)| * (21 / 20) := by
      rw [targetCoord_sub, abs_mul, abs_of_pos (by norm_num : (0 : ℚ) < 21 / 20)]
    have h4 : |targetCoord i N - targetCoord j N| ≤
        |coord - targetCoord j N| + |coord - targetCoord i N| := by
      have := abs_sub_le (targetCoord i N) coord (targetCoord j N)
      rw [abs_sub_comm (targetCoord i N) coord] at this
      linarith
    linarith

/-- C2: on the cube just built by `createCube(N)`, for a proper axis, two different
layer indices never select a common piece, and the slices of the layers `0 .. N-1`
taken together are the whole piece collection, each piece once. -/
theorem getSlice_fresh_partition (N : ℕ) (axis : Axis) (ha : axis ≠ Axis.other) (w0 : World) :
    (∀ i j : ℤ, i ≠ j → ∀ c ∈ getSlice axis i N (createCube N w0),
        c ∉ getSlice axis j N (createCube N w0))
    ∧ ((List.range N).flatMap fun i => getSlice axis (i : ℤ) N (createCube N w0)).Perm
        (createCube N w0).cubies := by
  constructor
  · intro i j hij c hi hj
    rw [getSlice_root axis _ N _ rfl (createCube_parents N w0), List.mem_filter] at hi hj
    exact hij (posInSlice_unique axis i j N c.position hi.2 hj.2)
  · have e : (fun i : ℕ => getSlice axis (i : ℤ) N (createCube N w0))
        = fun i : ℕ => ((gridList N).filter fun g => decide ((gridCoord axis g).getD 0 = i)).map
            (cubieAt N) := by
      funext i
      rw [getSlice_createCube]
      congr 1
      apply List.filter_congr
      intro g _
      exact gridInLayer_eq axis ha i g
    rw [e, ← List.map_flatMap]
    have hc : (createCube N w0).cubies = (gridList N).map (cubieAt N) := buildCubies_eq N
    rw [hc]
    apply List.Perm.map
    refine (flatMap_filter_key_perm _ (gridList N) N).trans ?_
    rw [List.filter_eq_self.mpr]
    intro g hg
    have hN : 0 < N := by
      rw [mem_gridList] at hg; omega
    simpa using gridCoord_lt axis N g hg hN

/-- Witness for C2: the y axis of the cube of size 3. -/
theorem getSlice_fresh_partition_witness :
    (∀ i j : ℤ, i ≠ j → ∀ c ∈ getSlice Axis.y i 3 (createCube 3 World.initial),
        c ∉ getSlice Axis.y j 3 (createCube 3 World.initial))
    ∧ ((List.range 3).flatMap fun i => getSlice Axis.y (i : ℤ) 3
        (createCube 3 World.initial)).Perm (createCube 3 World.initial).cubies :=
  getSlice_fresh_partition 3 Axis.y (by decide) World.initial

/-! ## One completed rotation on an idle cube -/

theorem getSlice_eq_of_fields (axis : Axis) (i : ℤ) (N : ℕ) (w w1 : World)
    (h1 : w1.cubies = w.cubies) (h2 : w1.cubeGroup = w.cubeGroup) (h3 : w1.pivot = w.pivot) :
    getSlice axis i N w1 = getSlice axis i N w := by
  unfold getSlice inSlice getWorldPosition parentMatrixWorld
  rw [h1, h2, h3]

theorem posInSlice_other (i : ℤ) (N : ℕ) (p : Vec3) : posInSlice Axis.other i N p = false := rfl

theorem getSlice_other (i : ℤ) (N : ℕ) (w : World) : getSlice Axis.other i N w = [] := by
  simp [getSlice, inSlice, axisCoord]

theorem group_new_get (axis : Axis) (ha : axis ≠ Axis.other) :
    Group.new.rotation.get axis = some 0 := by
  cases axis <;> simp [Group.new, Euler.get] at ha ⊢

theorem pivot_matrixWorld (axis : Axis) (k : ℤ) :
    ({ Group.new with rotation := Group.new.rotation.set axis k } : Group).matrixWorld
      = ⟨quarterTurn axis k, Vec3.zero⟩ := by
  cases axis <;>
    simp [Group.matrixWorld, Group.new, Euler.set, Euler.toMat, quarterTurn, Mat3.one]

theorem attach_pivot (w : World) (c : Cubie) (hg : w.cubeGroup = Group.new)
    (hp : w.pivot = some Group.new) (hc : c.parent = Parent.cubeGroup) :
    attach w Parent.pivot c = { c with parent := Parent.pivot } := by
  simp [attach, parentMatrixWorld, hg, hp, hc, matrixWorld_new, affine_inv_one]

theorem attach_cubeGroup (w : World) (c : Cubie) (axis : Axis) (k : ℤ)
    (hg : w.cubeGroup = Group.new)
    (hp : w.pivot = some { Group.new with rotation := Group.new.rotation.set axis k })
    (hc : c.parent = Parent.pivot) :
    attach w Parent.cubeGroup c = c.turned axis k := by
  simp only [attach, parentMatrixWorld, hg, hp, hc, matrixWorld_new, affine_inv_one,
    pivot_matrixWorld, affine_one_mul, Cubie.turned]
  simp [Affine.mul, Affine.apply, Cubie.position, Vec3.add, Vec3.zero]

theorem rotateSlice_idle_empty (axis : Axis) (i d : ℤ) (N : ℕ) (cb : Option Callback)
    (w : World) (hl : w.isAnimating = false) (he : getSlice axis i N w = []) :
    rotateSlice axis i d N cb w =
      ({ w with
          trace := w.trace ++ [Event.rotateSlice axis i d N true, Event.warnNoCubies axis i]
            ++ (match cb with
                | some c => [Event.onComplete c]
                | none => []) }, cb) := by
  obtain ⟨cg, cubies, cs, ia, pv, tw, tr⟩ := w
  simp only at hl
  subst hl
  have e : getSlice axis i N
      { cubeGroup := cg, cubies := cubies, currentSize := cs, isAnimating := true, pivot := pv,
        tween := tw, trace := tr ++ [Event.rotateSlice axis i d N true] } = [] :=
    (getSlice_eq_of_fields axis i N _ _ rfl rfl rfl).trans he
  simp only [rotateSlice, Bool.false_eq_true, ↓reduceIte, e, List.length_nil, List.append_assoc,
    List.singleton_append, List.cons_append, List.nil_append]

theorem rotateSlice_idle_nonempty (axis : Axis) (i d : ℤ) (N : ℕ) (cb : Option Callback)
    (w : World) (hw : Idle w) (hne : getSlice axis i N w ≠ []) :
    rotateSlice axis i d N cb w =
      ({ w with
          isAnimating := true,
          pivot := some Group.new,
          cubies := w.cubies.map fun c =>
            if posInSlice axis i N c.position then { c with parent := Parent.pivot } else c,
          tween := some { axis := axis, target := some d, onComplete := cb },
          trace := w.trace ++ [Event.rotateSlice axis i d N true, Event.pivotAdded] }, none) := by
  have ha : axis ≠ Axis.other := by
    rintro rfl; exact hne (getSlice_other i N w)
  have hsl := getSlice_idle axis i N w hw
  obtain ⟨cg, cubies, cs, ia, pv, tw, tr⟩ := w
  obtain ⟨hl, hnt, hnp, hr, hpar⟩ := hw
  simp only at hl hnt hnp hr hpar hsl
  subst hl hnt hnp hr
  have e : getSlice axis i N
      { cubeGroup := Group.new, cubies := cubies, currentSize := cs, isAnimating := true,
        pivot := none, tween := none, trace := tr ++ [Event.rotateSlice axis i d N true] }
        = getSlice axis i N
      { cubeGroup := Group.new, cubies := cubies, currentSize := cs, isAnimating := false,
        pivot := none, tween := none, trace := tr } :=
    getSlice_eq_of_fields axis i N _ _ rfl rfl rfl
  have hlen : ¬ (getSlice axis i N
      { cubeGroup := Group.new, cubies := cubies, currentSize := cs, isAnimating := false,
        pivot := none, tween := none, trace := tr }).length = 0 := by
    rwa [List.length_eq_zero]
  simp only [rotateSlice, Bool.false_eq_true, ↓reduceIte, e, hlen, group_new_get axis ha,
    Option.map_some', zero_add, List.append_assoc, List.singleton_append, List.cons_append,
    List.nil_append]
  refine Prod.ext ?_ rfl
  simp only [World.mk.injEq, true_and, and_true]
  apply List.map_congr_left
  intro c hc
  have hmem : c ∈ getSlice axis i N
      { cubeGroup := Group.new, cubies := cubies, currentSize := cs, isAnimating := false,
        pivot := none, tween := none, trace := tr } ↔ posInSlice axis i N c.position = true := by
    rw [hsl, List.mem_filter]
    exact ⟨fun h => h.2, fun h => ⟨hc, h⟩⟩
  by_cases hp : posInSlice axis i N c.position = true
  · rw [if_pos (hmem.mpr hp), if_pos hp]
    exact attach_pivot _ c rfl rfl (hpar c hc)
  · rw [if_neg (fun h => hp (hmem.mp h)), if_neg hp]

theorem tweenComplete_none (w : World) (h : w.tween = none) : tweenComplete w = (w, none) := by
  simp [tweenComplete, h]

theorem tweenComplete_after_start (axis : Axis) (i d : ℤ) (N : ℕ) (cb : Option Callback)
    (w : World) (hw : Idle w) :
    tweenComplete
      { w with
          isAnimating := true,
          pivot := some Group.new,
          cubies := w.cubies.map fun c =>
            if posInSlice axis i N c.position then { c with parent := Parent.pivot } else c,
          tween := some { axis := axis, target := some d, onComplete := cb },
          trace := w.trace ++ [Event.rotateSlice axis i d N true, Event.pivotAdded] }
      = ({ w with
            cubies := w.cubies.map (turnSlice axis i d N),
            trace := w.trace ++ [Event.rotateSlice axis i d N true, Event.pivotAdded,
              Event.pivotRemoved]
              ++ (match cb with
                  | some c => [Event.onComplete c]
                  | none => []) }, cb) := by
  obtain ⟨cg, cubies, cs, ia, pv, tw, tr⟩ := w
  obtain ⟨hl, hnt, hnp, hr, hpar⟩ := hw
  simp only at hl hnt hnp hr hpar
  subst hl hnt hnp hr
  simp only [tweenComplete, Option.map_some', List.map_map, List.append_assoc,
    List.singleton_append, List.cons_append, List.nil_append]
  refine Prod.ext ?_ rfl
  simp only [World.mk.injEq, true_and]
  constructor
  · apply List.map_congr_left
    intro c hc
    have hcp := hpar c hc
    by_cases hp : posInSlice axis i N c.position = true
    · simp only [Function.comp_apply, hp, ↓reduceIte, turnSlice]
      rw [attach_cubeGroup _ _ axis d rfl rfl rfl]
      rfl
    · simp only [Function.comp_apply, hp, Bool.false_eq_true, ↓reduceIte, turnSlice, hcp]
      simp
  · cases cb <;> first | rfl | trivial

theorem turnSlice_of_not (axis : Axis) (i d : ℤ) (N : ℕ) (c : Cubie)
    (h : posInSlice axis i N c.position = false) : turnSlice axis i d N c = c := by
  simp [turnSlice, h]

theorem map_turnSlice_of_empty (axis : Axis) (i d : ℤ) (N : ℕ) (w : World) (hw : Idle w)
    (he : getSlice axis i N w = []) : w.cubies.map (turnSlice axis i d N) = w.cubies := by
  rw [getSlice_idle axis i N w hw, List.filter_eq_nil_iff] at he
  conv_rhs => rw [← List.map_id w.cubies]
  apply List.map_congr_left
  intro c hc
  rw [turnSlice_of_not axis i d N c (by simpa using he c hc)]
  rfl

theorem completeRotation_empty (axis : Axis) (i d : ℤ) (N : ℕ) (cb : Option Callback)
    (w : World) (hw : Idle w) (he : getSlice axis i N w = []) :
    completeRotation axis i d N cb w =
      { w with
        trace := w.trace ++ [Event.rotateSlice axis i d N true, Event.warnNoCubies axis i]
          ++ (match cb with
              | some c => [Event.onComplete c]
              | none => []) } := by
  unfold completeRotation
  rw [rotateSlice_idle_empty axis i d N cb w hw.lock he, tweenComplete_none]
  exact hw.noTween

theorem completeRotation_nonempty (axis : Axis) (i d : ℤ) (N : ℕ) (cb : Option Callback)
    (w : World) (hw : Idle w) (hne : getSlice axis i N w ≠ []) :
    completeRotation axis i d N cb w =
      { w with
        cubies := w.cubies.map (turnSlice axis i d N),
        trace := w.trace ++ [Event.rotateSlice axis i d N true, Event.pivotAdded,
          Event.pivotRemoved]
          ++ (match cb with
              | some c => [Event.onComplete c]
              | none => []) } := by
  unfold completeRotation
  rw [rotateSlice_idle_nonempty axis i d N cb w hw hne, tweenComplete_after_start axis i d N cb w hw]

theorem completeRotation_idle (axis : Axis) (i d : ℤ) (N : ℕ) (cb : Option Callback)
    (w : World) (hw : Idle w) :
    completeRotation axis i d N cb w =
      { w with
        cubies := w.cubies.map (turnSlice axis i d N),
        trace := (completeRotation axis i d N cb w).trace } := by
  by_cases he : getSlice axis i N w = []
  · rw [completeRotation_empty axis i d N cb w hw he, map_turnSlice_of_empty axis i d N w hw he]
  · rw [completeRotation_nonempty axis i d N cb w hw he]

theorem completeRotation_cubies (axis : Axis) (i d : ℤ) (N : ℕ) (cb : Option Callback)
    (w : World) (hw : Idle w) :
    (completeRotation axis i d N cb w).cubies = w.cubies.map (turnSlice axis i d N) := by
  rw [completeRotation_idle axis i d N cb w hw]

theorem turnSlice_parent (axis : Axis) (i d : ℤ) (N : ℕ) (c : Cubie)
    (h : c.parent = Parent.cubeGroup) : (turnSlice axis i d N c).parent = Parent.cubeGroup := by
  unfold turnSlice
  split
  · rfl
  · exact h

theorem completeRotation_preserves_idle (axis : Axis) (i d : ℤ) (N : ℕ) (cb : Option Callback)
    (w : World) (hw : Idle w) : Idle (completeRotation axis i d N cb w) := by
  rw [completeRotation_idle axis i d N cb w hw]
  refine ⟨hw.lock, hw.noTween, hw.noPivot, hw.root, ?_⟩
  intro c hc
  simp only [List.mem_map] at hc
  obtain ⟨c0, hc0, rfl⟩ := hc
  exact turnSlice_parent axis i d N c0 (hw.parents c0 hc0)

/-! ## Algebra of quarter turns -/

theorem mod_four_cases (k : ℤ) : k % 4 = 0 ∨ k % 4 = 1 ∨ k % 4 = 2 ∨ k % 4 = 3 := by omega

theorem cosQ_add (a b : ℤ) : cosQ (a + b) = cosQ a * cosQ b - sinQ a * sinQ b := by
  rcases mod_four_cases a with ha | ha | ha | ha <;>
  rcases mod_four_cases b with hb | hb | hb | hb <;>
  rcases mod_four_cases (a + b) with hab | hab | hab | hab <;>
  first
    | omega
    | simp [cosQ, sinQ, ha, hb, hab]

theorem sinQ_add (a b : ℤ) : sinQ (a + b) = sinQ a * cosQ b + cosQ a * sinQ b := by
  rcases mod_four_cases a with ha | ha | ha | ha <;>
  rcases mod_four_cases b with hb | hb | hb | hb <;>
  rcases mod_four_cases (a + b) with hab | hab | hab | hab <;>
  first
    | omega
    | simp [cosQ, sinQ, ha, hb, hab]

theorem cosQ_sq_add_sinQ_sq (k : ℤ) : cosQ k * cosQ k + sinQ k * sinQ k = 1 := by
  rcases mod_four_cases k with h | h | h | h <;> simp [cosQ, sinQ, h]

theorem quarterTurn_zero (axis : Axis) : quarterTurn axis 0 = Mat3.one := by
  cases axis <;> simp [quarterTurn, Mat3.one]

theorem quarterTurn_add (axis : Axis) (a b : ℤ) :
    (quarterTurn axis b).mul (quarterTurn axis a) = quarterTurn axis (a + b) := by
  cases axis <;> ext <;>
    simp [quarterTurn, Mat3.mul, Vec3.dot, Mat3.c1, Mat3.c2, Mat3.c3, Mat3.one, cosQ_add,
      sinQ_add] <;>
    ring

theorem mat3_mul_assoc (a b c : Mat3) : (a.mul b).mul c = a.mul (b.mul c) := by
  simp only [Mat3.mul, Vec3.dot, Mat3.c1, Mat3.c2, Mat3.c3, Mat3.mk.injEq, Vec3.mk.injEq]
  refine ⟨⟨?_, ?_, ?_⟩, ⟨?_, ?_, ?_⟩, ⟨?_, ?_, ?_⟩⟩ <;> ring

theorem mat3_mulVec_mulVec (a b : Mat3) (v : Vec3) :
    a.mulVec (b.mulVec v) = (a.mul b).mulVec v := by
  simp only [Mat3.mul, Mat3.mulVec, Vec3.dot, Mat3.c1, Mat3.c2, Mat3.c3, Vec3.mk.injEq]
  refine ⟨?_, ?_, ?_⟩ <;> ring

theorem mat3_one_mul (a : Mat3) : Mat3.one.mul a = a := by
  simp [Mat3.mul, Mat3.one, Vec3.dot, Mat3.c1, Mat3.c2, Mat3.c3]

theorem mat3_one_mulVec (v : Vec3) : Mat3.one.mulVec v = v := by
  simp [Mat3.mulVec, Mat3.one, Vec3.dot]

theorem axisCoord_quarterTurn (axis : Axis) (k : ℤ) (p : Vec3) :
    axisCoord axis ((quarterTurn axis k).mulVec p) = axisCoord axis p := by
  cases axis <;> simp [axisCoord, quarterTurn, Mat3.mulVec, Vec3.dot]

theorem posInSlice_quarterTurn (axis : Axis) (i : ℤ) (N : ℕ) (k : ℤ) (p : Vec3) :
    posInSlice axis i N ((quarterTurn axis k).mulVec p) = posInSlice axis i N p := by
  unfold posInSlice
  rw [axisCoord_quarterTurn]

theorem lengthSq_quarterTurn (axis : Axis) (k : ℤ) (p : Vec3) :
    ((quarterTurn axis k).mulVec p).lengthSq = p.lengthSq := by
  have h := cosQ_sq_add_sinQ_sq k
  cases axis <;> simp only [quarterTurn, Mat3.mulVec, Vec3.dot, Vec3.lengthSq, Mat3.one]
  · linear_combination (p.y * p.y + p.z * p.z) * h
  · linear_combination (p.x * p.x + p.z * p.z) * h
  · linear_combination (p.x * p.x + p.y * p.y) * h
  · ring

theorem turned_turned (axis : Axis) (a b : ℤ) (c : Cubie) :
    (c.turned axis a).turned axis b = c.turned axis (a + b) := by
  simp only [Cubie.turned, Cubie.position, ← mat3_mul_assoc, mat3_mulVec_mulVec, quarterTurn_add]

theorem turned_zero (axis : Axis) (c : Cubie) (h : c.parent = Parent.cubeGroup) :
    c.turned axis 0 = c := by
  obtain ⟨m, mat, p, o, g⟩ := c
  simp only at h
  subst h
  simp [Cubie.turned, quarterTurn_zero, mat3_one_mul, mat3_one_mulVec, Cubie.position]

theorem turnSlice_turnSlice (axis : Axis) (i : ℤ) (N : ℕ) (a b : ℤ) (c : Cubie) :
    turnSlice axis i b N (turnSlice axis i a N c) = turnSlice axis i (a + b) N c := by
  by_cases h : posInSlice axis i N c.position = true
  · have h2 : posInSlice axis i N (c.turned axis a).position = true := by
      simp only [Cubie.turned, Cubie.position] at h ⊢
      rw [posInSlice_quarterTurn]; exact h
    simp only [turnSlice, h, h2, ↓reduceIte, turned_turned]
  · simp only [turnSlice, h, Bool.false_eq_true, ↓reduceIte]

theorem quarterTurn_four (axis : Axis) : quarterTurn axis 4 = Mat3.one := by
  cases axis <;> simp [quarterTurn, Mat3.one, cosQ, sinQ]

theorem turnSlice_trivial (axis : Axis) (i : ℤ) (N : ℕ) (k : ℤ) (c : Cubie)
    (hk : quarterTurn axis k = Mat3.one) (h : c.parent = Parent.cubeGroup) :
    turnSlice axis i k N c = c := by
  unfold turnSlice
  split
  · obtain ⟨m, mat, p, o, g⟩ := c
    simp only at h
    subst h
    simp [Cubie.turned, hk, mat3_one_mul, mat3_one_mulVec, Cubie.position]
  · rfl

/-! ## Claims about a single rotation -/

/-- C3 (amended): in exact arithmetic, a completed `rotateSlice` that started on an idle
cube (lock clear, every piece a child of the untransformed cube root) with a non-empty
slice leaves every selected piece a child of the cube root again, with its local matrix
premultiplied by the rotation of `direction` quarter turns about the requested axis
through the origin of the cube root: position `p` becomes `R p`, orientation `M`
becomes `R M`. -/
theorem rotateSlice_commit (axis : Axis) (layerIndex direction : ℤ) (N : ℕ)
    (cb : Option Callback) (w : World) (hw : Idle w)
    (hne : getSlice axis layerIndex N w ≠ []) :
    (completeRotation axis layerIndex direction N cb w).cubies.length = w.cubies.length
    ∧ ∀ (k : ℕ) (c : Cubie), w.cubies[k]? = some c → c ∈ getSlice axis layerIndex N w →
        (completeRotation axis layerIndex direction N cb w).cubies[k]? =
          some { c with
            parent := Parent.cubeGroup,
            matrix := ⟨(quarterTurn axis direction).mul c.matrix.lin,
              (quarterTurn axis direction).mulVec c.position⟩ } := by
  rw [completeRotation_nonempty axis layerIndex direction N cb w hw hne]
  refine ⟨by simp, ?_⟩
  intro k c hk hc
  rw [getSlice_idle axis layerIndex N w hw, List.mem_filter] at hc
  simp only [List.getElem?_map, hk, Option.map_some', turnSlice, hc.2, ↓reduceIte, Cubie.turned]

/-- Witness for C3 (amended): the layer `x = 0` of the cube of size 3, direction `+1`. -/
theorem rotateSlice_commit_witness :
    (completeRotation Axis.x 0 1 3 none (createCube 3 World.initial)).cubies.length
        = (createCube 3 World.initial).cubies.length
    ∧ ∀ (k : ℕ) (c : Cubie), (createCube 3 World.initial).cubies[k]? = some c →
        c ∈ getSlice Axis.x 0 3 (createCube 3 World.initial) →
        (completeRotation Axis.x 0 1 3 none (createCube 3 World.initial)).cubies[k]? =
          some { c with
            parent := Parent.cubeGroup,
            matrix := ⟨(quarterTurn Axis.x 1).mul c.matrix.lin,
              (quarterTurn Axis.x 1).mulVec c.position⟩ } :=
  rotateSlice_commit Axis.x 0 1 3 none (createCube 3 World.initial)
    (createCube_idle 3 World.initial ⟨rfl, rfl, rfl, rfl, by simp [World.initial]⟩)
    (by
      rw [getSlice_createCube]
      decide)

/-- C5 (amended): in exact arithmetic, on an idle cube, a completed rotation of a slice
with direction `+1` followed by a completed rotation of the same slice with direction
`-1` gives back every piece as it was (position, orientation, parent), and so do four
completed rotations of the slice with direction `+1`. -/
theorem rotateSlice_round_trip (axis : Axis) (layerIndex : ℤ) (N : ℕ)
    (cb1 cb2 cb3 cb4 : Option Callback) (w : World) (hw : Idle w) :
    (completeRotation axis layerIndex (-1) N cb2
        (completeRotation axis layerIndex 1 N cb1 w)).cubies = w.cubies
    ∧ (completeRotation axis layerIndex 1 N cb4
        (completeRotation axis layerIndex 1 N cb3
          (completeRotation axis layerIndex 1 N cb2
            (completeRotation axis layerIndex 1 N cb1 w)))).cubies = w.cubies := by
  have h1 := completeRotation_preserves_idle axis layerIndex 1 N cb1 w hw
  have h2 := completeRotation_preserves_idle axis layerIndex 1 N cb2 _ h1
  have h3 := completeRotation_preserves_idle axis layerIndex 1 N cb3 _ h2
  constructor
  · rw [completeRotation_cubies _ _ _ _ _ _ h1, completeRotation_cubies _ _ _ _ _ _ hw,
      List.map_map]
    conv_rhs => rw [← List.map_id w.cubies]
    apply List.map_congr_left
    intro c hc
    simp only [Function.comp_apply, turnSlice_turnSlice, id_eq]
    exact turnSlice_trivial axis layerIndex N _ c (quarterTurn_zero axis) (hw.parents c hc)
  · rw [completeRotation_cubies _ _ _ _ _ _ h3, completeRotation_cubies _ _ _ _ _ _ h2,
      completeRotation_cubies _ _ _ _ _ _ h1, completeRotation_cubies _ _ _ _ _ _ hw,
      List.map_map, List.map_map, List.map_map]
    conv_rhs => rw [← List.map_id w.cubies]
    apply List.map_congr_left
    intro c hc
    simp only [Function.comp_apply, turnSlice_turnSlice, id_eq]
    exact turnSlice_trivial axis layerIndex N _ c (quarterTurn_four axis) (hw.parents c hc)

/-- Witness for C5 (amended): the layer `y = 2` of the cube of size 3. -/
theorem rotateSlice_round_trip_witness :
    (completeRotation Axis.y 2 (-1) 3 none
        (completeRotation Axis.y 2 1 3 none (createCube 3 World.initial))).cubies
      = (createCube 3 World.initial).cubies
    ∧ (completeRotation Axis.y 2 1 3 none
        (completeRotation Axis.y 2 1 3 none
          (completeRotation Axis.y 2 1 3 none
            (completeRotation Axis.y 2 1 3 none (createCube 3 World.initial))))).cubies
      = (createCube 3 World.initial).cubies :=
  rotateSlice_round_trip Axis.y 2 3 none none none none (createCube 3 World.initial)
    (createCube_idle 3 World.initial ⟨rfl, rfl, rfl, rfl, by simp [World.initial]⟩)

theorem turnSlice_lengthSq (axis : Axis) (i d : ℤ) (N : ℕ) (c : Cubie) :
    (turnSlice axis i d N c).position.lengthSq = c.position.lengthSq := by
  unfold turnSlice
  split
  · simp only [Cubie.turned, Cubie.position]
    exact lengthSq_quarterTurn axis d _
  · rfl

/-- C6 (amended): in exact arithmetic, a completed `rotateSlice` on an idle cube keeps,
for every piece of the collection (in the slice or not), the squared distance of its
position from the origin of the cube root, hence its distance from the cube centre. -/
theorem rotateSlice_keeps_distance (axis : Axis) (layerIndex direction : ℤ) (N : ℕ)
    (cb : Option Callback) (w : World) (hw : Idle w) :
    (completeRotation axis layerIndex direction N cb w).cubies.map
        (fun c => c.position.lengthSq)
      = w.cubies.map (fun c => c.position.lengthSq) := by
  rw [completeRotation_cubies axis layerIndex direction N cb w hw, List.map_map]
  apply List.map_congr_left
  intro c _
  exact turnSlice_lengthSq axis layerIndex direction N c

/-- Witness for C6 (amended): the layer `z = 1` of the cube of size 4, direction `-1`. -/
theorem rotateSlice_keeps_distance_witness :
    (completeRotation Axis.z 1 (-1) 4 none (createCube 4 World.initial)).cubies.map
        (fun c => c.position.lengthSq)
      = (createCube 4 World.initial).cubies.map (fun c => c.position.lengthSq) :=
  rotateSlice_keeps_distance Axis.z 1 (-1) 4 none (createCube 4 World.initial)
    (createCube_idle 4 World.initial ⟨rfl, rfl, rfl, rfl, by simp [World.initial]⟩)

/-- C7: `rotateSlice` called while `isAnimating` is true returns at once: no global
changes (pieces, parents, lock, pivot, pending tween, cube root, size), the callback is
neither called nor stored, and the completion of the rotation in flight gives the same
pieces and calls the same callback as it would have without the call. -/
theorem rotateSlice_rejected (axis : Axis) (layerIndex direction : ℤ) (N : ℕ)
    (cb : Option Callback) (w : World) (h : w.isAnimating = true) :
    rotateSlice axis layerIndex direction N cb w
      = ({ w with trace := w.trace ++ [Event.rotateSlice axis layerIndex direction N false] },
          none)
    ∧ (rotateSlice axis layerIndex direction N cb w).1.cubies = w.cubies
    ∧ (rotateSlice axis layerIndex direction N cb w).1.isAnimating = true
    ∧ (rotateSlice axis layerIndex direction N cb w).1.pivot = w.pivot
    ∧ (rotateSlice axis layerIndex direction N cb w).1.tween = w.tween
    ∧ (tweenComplete (rotateSlice axis layerIndex direction N cb w).1).1.cubies
        = (tweenComplete w).1.cubies
    ∧ (tweenComplete (rotateSlice axis layerIndex direction N cb w).1).2
        = (tweenComplete w).2 := by
  have e : rotateSlice axis layerIndex direction N cb w
      = ({ w with trace := w.trace ++ [Event.rotateSlice axis layerIndex direction N false] },
          none) := by
    simp [rotateSlice, h]
  rw [e]
  refine ⟨rfl, rfl, h, rfl, rfl, ?_, ?_⟩
  · unfold tweenComplete
    cases w.tween <;> rfl
  · unfold tweenComplete
    cases w.tween <;> rfl

/-- Witness for C7: a second request while the first rotation of a cube of size 3 is in flight. -/
theorem rotateSlice_rejected_witness :
    rotateSlice Axis.y 1 1 3 none (rotateSlice Axis.x 0 1 3 none (createCube 3 World.initial)).1
      = ({ (rotateSlice Axis.x 0 1 3 none (createCube 3 World.initial)).1 with
            trace := (rotateSlice Axis.x 0 1 3 none (createCube 3 World.initial)).1.trace
              ++ [Event.rotateSlice Axis.y 1 1 3 false] }, none) :=
  (rotateSlice_rejected Axis.y 1 1 3 none
    (rotateSlice Axis.x 0 1 3 none (createCube 3 World.initial)).1
    (by
      rw [rotateSlice_idle_nonempty Axis.x 0 1 3 none _
        (createCube_idle 3 World.initial ⟨rfl, rfl, rfl, rfl, by simp [World.initial]⟩)
        (by rw [getSlice_createCube]; decide)])).1

/-- C8: `rotateSlice` called on an idle cube with a non-empty slice and a callback does
not call the callback itself; the completion of its tween calls it, once, as the last
action, after the lock is cleared, every piece is a child of the cube root again and the
pivot is removed; nothing is left pending that could call it again, and a `rotateSlice`
issued from that state (from inside the callback) is accepted. -/
theorem rotateSlice_callback_once (axis : Axis) (layerIndex direction : ℤ) (N : ℕ)
    (cb : Callback) (w : World) (hw : Idle w) (hne : getSlice axis layerIndex N w ≠ []) :
    (rotateSlice axis layerIndex direction N (some cb) w).2 = none
    ∧ (rotateSlice axis layerIndex direction N (some cb) w).1.trace
        = w.trace ++ [Event.rotateSlice axis layerIndex direction N true, Event.pivotAdded]
    ∧ (tweenComplete (rotateSlice axis layerIndex direction N (some cb) w).1).2 = some cb
    ∧ (tweenComplete (rotateSlice axis layerIndex direction N (some cb) w).1).1.trace
        = w.trace ++ [Event.rotateSlice axis layerIndex direction N true, Event.pivotAdded,
            Event.pivotRemoved, Event.onComplete cb]
    ∧ (tweenComplete (rotateSlice axis layerIndex direction N (some cb) w).1).1.trace.count
          (Event.onComplete cb) = w.trace.count (Event.onComplete cb) + 1
    ∧ Idle (tweenComplete (rotateSlice axis layerIndex direction N (some cb) w).1).1
    ∧ tweenComplete (tweenComplete (rotateSlice axis layerIndex direction N (some cb) w).1).1
        = ((tweenComplete (rotateSlice axis layerIndex direction N (some cb) w).1).1, none)
    ∧ ∀ (axis2 : Axis) (layerIndex2 direction2 : ℤ) (N2 : ℕ) (cb2 : Option Callback),
        Event.rotateSlice axis2 layerIndex2 direction2 N2 true ∈
          (rotateSlice axis2 layerIndex2 direction2 N2 cb2
            (tweenComplete (rotateSlice axis layerIndex direction N (some cb) w).1).1).1.trace := by
  have hI : Idle (completeRotation axis layerIndex direction N (some cb) w) :=
    completeRotation_preserves_idle axis layerIndex direction N (some cb) w hw
  unfold completeRotation at hI
  rw [rotateSlice_idle_nonempty axis layerIndex direction N (some cb) w hw hne] at hI ⊢
  rw [tweenComplete_after_start axis layerIndex direction N (some cb) w hw] at hI ⊢
  refine ⟨rfl, rfl, rfl, by simp, ?_, hI, ?_, ?_⟩
  · simp [List.count_append, List.count_cons]
  · exact tweenComplete_none _ hI.noTween
  · intro axis2 layerIndex2 direction2 N2 cb2
    have hl := hI.lock
    simp only at hl
    simp only [rotateSlice, hl, Bool.false_eq_true, ↓reduceIte]
    split <;> simp

/-- Witness for C8: the layer `x = 0` of the cube of size 3 with a callback. -/
theorem rotateSlice_callback_once_witness :
    (tweenComplete (rotateSlice Axis.x 0 1 3 (some ⟨[], 0, 3⟩) (createCube 3 World.initial)).1).2
      = some ⟨[], 0, 3⟩ :=
  (rotateSlice_callback_once Axis.x 0 1 3 ⟨[], 0, 3⟩ (createCube 3 World.initial)
    (createCube_idle 3 World.initial ⟨rfl, rfl, rfl, rfl, by simp [World.initial]⟩)
    (by rw [getSlice_createCube]; decide)).2.2.1

/-- C9: `rotateSlice` called with the lock clear on a selection that is empty returns
with the lock clear again, having called the callback once as its last action; no
pivot is made, no tween is started, and no piece changes. -/
theorem rotateSlice_empty (axis : Axis) (layerIndex direction : ℤ) (N : ℕ)
    (cb : Callback) (w : World) (hl : w.isAnimating = false)
    (he : getSlice axis layerIndex N w = []) :
    rotateSlice axis layerIndex direction N (some cb) w
      = ({ w with
            trace := w.trace ++ [Event.rotateSlice axis layerIndex direction N true,
              Event.warnNoCubies axis layerIndex, Event.onComplete cb] }, some cb)
    ∧ (rotateSlice axis layerIndex direction N (some cb) w).1.isAnimating = false
    ∧ (rotateSlice axis layerIndex direction N (some cb) w).1.pivot = w.pivot
    ∧ (rotateSlice axis layerIndex direction N (some cb) w).1.tween = w.tween
    ∧ (rotateSlice axis layerIndex direction N (some cb) w).1.cubies = w.cubies
    ∧ Event.pivotAdded ∉ (rotateSlice axis layerIndex direction N (some cb) w).1.trace.drop
        w.trace.length
    ∧ (rotateSlice axis layerIndex direction N (some cb) w).1.trace.count (Event.onComplete cb)
        = w.trace.count (Event.onComplete cb) + 1 := by
  rw [rotateSlice_idle_empty axis layerIndex direction N (some cb) w hl he]
  refine ⟨by simp, hl, rfl, rfl, rfl, ?_, ?_⟩
  · simp
  · simp [List.count_append, List.count_cons]

/-- Witness for C9: layer index 3 on the cube of size 3 selects nothing. -/
theorem rotateSlice_empty_witness :
    (rotateSlice Axis.x 3 1 3 (some ⟨[], 0, 3⟩) (createCube 3 World.initial)).1.cubies
      = (createCube 3 World.initial).cubies :=
  (rotateSlice_empty Axis.x 3 1 3 ⟨[], 0, 3⟩ (createCube 3 World.initial) rfl
    (by rw [getSlice_createCube]; decide)).2.2.2.2.1

/-! ## The occupied positions are invariant -/

theorem skipInner_eq_false_iff (N x y z : ℕ) :
    skipInner N x y z = false ↔
      (N ≤ 2 ∨ x = 0 ∨ N ≤ x + 1 ∨ y = 0 ∨ N ≤ y + 1 ∨ z = 0 ∨ N ≤ z + 1) := by
  simp only [skipInner, Bool.and_eq_false_iff, decide_eq_false_iff_not]
  omega

theorem nodup_gridList (N : ℕ) : (gridList N).Nodup := by
  unfold gridList
  rw [List.nodup_flatMap]
  constructor
  · intro x _
    rw [List.nodup_flatMap]
    constructor
    · intro y _
      have e : (List.range N).filterMap (fun z => if skipInner N x y z then none else some (x, y, z))
          = ((List.range N).filter fun z => !skipInner N x y z).map fun z => (x, y, z) := by
        rw [← List.filterMap_eq_map, List.filterMap_filter]
        congr 1; funext z
        cases skipInner N x y z <;> simp
      rw [e]
      apply List.Nodup.map
      · intro a b h; simpa using h
      · exact (List.nodup_range N).filter _
    · apply (List.nodup_range N).pairwise_of_forall_ne
      intro a _ b _ hab
      simp only [Function.onFun, List.Disjoint, List.mem_filterMap, List.mem_range]
      rintro g ⟨z1, _, h1⟩ ⟨z2, _, h2⟩
      split at h1 <;> split at h2 <;> simp_all
      rw [← h1] at h2
      simp only [Prod.mk.injEq] at h2
      exact hab h2.2.1.symm
  · apply (List.nodup_range N).pairwise_of_forall_ne
    intro a _ b _ hab
    simp only [Function.onFun, List.Disjoint, List.mem_flatMap, List.mem_filterMap,
      List.mem_range]
    rintro g ⟨y1, _, z1, _, h1⟩ ⟨y2, _, z2, _, h2⟩
    split at h1 <;> split at h2 <;> simp_all
    rw [← h1] at h2
    simp only [Prod.mk.injEq] at h2
    exact hab h2.1.symm

theorem layerCoord_injective (N : ℕ) : Function.Injective (layerCoord N) := by
  intro a b h
  simp only [layerCoord, PIECE_GAP] at h
  have : (a : ℚ) = b := by linarith
  exact_mod_cast this

theorem cubieAt_position (N : ℕ) (g : ℕ × ℕ × ℕ) :
    (cubieAt N g).position = ⟨layerCoord N g.1, layerCoord N g.2.1, layerCoord N g.2.2⟩ := rfl

theorem positions_createCube (N : ℕ) (w0 : World) :
    positions (createCube N w0)
      = (gridList N).map fun g => ⟨layerCoord N g.1, layerCoord N g.2.1, layerCoord N g.2.2⟩ := by
  simp only [positions, createCube, buildCubies_eq, List.map_map]
  rfl

theorem createCube_occupies (N : ℕ) (w0 : World) (h0 : Idle w0) :
    Occupies N (createCube N w0) := by
  refine ⟨createCube_idle N w0 h0, ?_, ?_⟩
  · rw [positions_createCube]
    apply List.Nodup.map _ (nodup_gridList N)
    rintro ⟨a1, a2, a3⟩ ⟨b1, b2, b3⟩ h
    simp only [Vec3.mk.injEq] at h
    rw [layerCoord_injective N h.1, layerCoord_injective N h.2.1, layerCoord_injective N h.2.2]
  · intro p
    rw [positions_createCube, List.mem_map]
    constructor
    · rintro ⟨⟨x, y, z⟩, hg, rfl⟩
      rw [mem_gridList] at hg
      exact ⟨x, y, z, hg.1, hg.2.1, hg.2.2.1, hg.2.2.2, rfl⟩
    · rintro ⟨x, y, z, hx, hy, hz, hs, rfl⟩
      exact ⟨(x, y, z), (mem_gridList N _).mpr ⟨hx, hy, hz, hs⟩, rfl⟩

theorem neg_layerCoord (N k : ℕ) (hk : k < N) : -layerCoord N k = layerCoord N (N - 1 - k) := by
  have h : ((N - 1 - k : ℕ) : ℚ) = (N : ℚ) - 1 - k := by
    rw [Nat.sub_sub, Nat.cast_sub (by omega)]; push_cast; ring
  simp only [layerCoord, createOffset, PIECE_GAP, h]
  ring

theorem onSurface_neg_x (N : ℕ) (a b c : ℚ) (h : onSurface N ⟨a, b, c⟩) :
    onSurface N ⟨-a, b, c⟩ := by
  obtain ⟨x, y, z, hx, hy, hz, hs, he⟩ := h
  simp only [Vec3.mk.injEq] at he
  obtain ⟨rfl, rfl, rfl⟩ := he
  refine ⟨N - 1 - x, y, z, by omega, hy, hz, ?_, by rw [neg_layerCoord N x hx]⟩
  rw [skipInner_eq_false_iff] at hs ⊢
  omega

theorem onSurface_neg_y (N : ℕ) (a b c : ℚ) (h : onSurface N ⟨a, b, c⟩) :
    onSurface N ⟨a, -b, c⟩ := by
  obtain ⟨x, y, z, hx, hy, hz, hs, he⟩ := h
  simp only [Vec3.mk.injEq] at he
  obtain ⟨rfl, rfl, rfl⟩ := he
  refine ⟨x, N - 1 - y, z, hx, by omega, hz, ?_, by rw [neg_layerCoord N y hy]⟩
  rw [skipInner_eq_false_iff] at hs ⊢
  omega

theorem onSurface_neg_z (N : ℕ) (a b c : ℚ) (h : onSurface N ⟨a, b, c⟩) :
    onSurface N ⟨a, b, -c⟩ := by
  obtain ⟨x, y, z, hx, hy, hz, hs, he⟩ := h
  simp only [Vec3.mk.injEq] at he
  obtain ⟨rfl, rfl, rfl⟩ := he
  refine ⟨x, y, N - 1 - z, hx, hy, by omega, ?_, by rw [neg_layerCoord N z hz]⟩
  rw [skipInner_eq_false_iff] at hs ⊢
  omega

theorem onSurface_swap_yz (N : ℕ) (a b c : ℚ) (h : onSurface N ⟨a, b, c⟩) :
    onSurface N ⟨a, c, b⟩ := by
  obtain ⟨x, y, z, hx, hy, hz, hs, he⟩ := h
  simp only [Vec3.mk.injEq] at he
  obtain ⟨rfl, rfl, rfl⟩ := he
  refine ⟨x, z, y, hx, hz, hy, ?_, rfl⟩
  rw [skipInner_eq_false_iff] at hs ⊢
  omega

theorem onSurface_swap_xz (N : ℕ) (a b c : ℚ) (h : onSurface N ⟨a, b, c⟩) :
    onSurface N ⟨c, b, a⟩ := by
  obtain ⟨x, y, z, hx, hy, hz, hs, he⟩ := h
  simp only [Vec3.mk.injEq] at he
  obtain ⟨rfl, rfl, rfl⟩ := he
  refine ⟨z, y, x, hz, hy, hx, ?_, rfl⟩
  rw [skipInner_eq_false_iff] at hs ⊢
  omega

theorem onSurface_swap_xy (N : ℕ) (a b c : ℚ) (h : onSurface N ⟨a, b, c⟩) :
    onSurface N ⟨b, a, c⟩ := by
  obtain ⟨x, y, z, hx, hy, hz, hs, he⟩ := h
  simp only [Vec3.mk.injEq] at he
  obtain ⟨rfl, rfl, rfl⟩ := he
  refine ⟨y, x, z, hy, hx, hz, ?_, rfl⟩
  rw [skipInner_eq_false_iff] at hs ⊢
  omega

theorem onSurface_quarterTurn (N : ℕ) (axis : Axis) (d : ℤ) (p : Vec3) (h : onSurface N p) :
    onSurface N ((quarterTurn axis d).mulVec p) := by
  obtain ⟨a, b, c⟩ := p
  cases axis <;> rcases mod_four_cases d with hd | hd | hd | hd <;>
    simp only [quarterTurn, Mat3.mulVec, Vec3.dot, cosQ, sinQ, hd, Mat3.one] <;>
    norm_num <;>
    first
      | exact h
      | exact onSurface_neg_y N _ _ _ (onSurface_swap_yz N _ _ _ h)
      | exact onSurface_neg_z N _ _ _ (onSurface_neg_y N _ _ _ h)
      | exact onSurface_neg_z N _ _ _ (onSurface_swap_yz N _ _ _ h)
      | exact onSurface_neg_z N _ _ _ (onSurface_swap_xz N _ _ _ h)
      | exact onSurface_neg_z N _ _ _ (onSurface_neg_x N _ _ _ h)
      | exact onSurface_neg_x N _ _ _ (onSurface_swap_xz N _ _ _ h)
      | exact onSurface_neg_x N _ _ _ (onSurface_swap_xy N _ _ _ h)
      | exact onSurface_neg_y N _ _ _ (onSurface_neg_x N _ _ _ h)
      | exact onSurface_neg_y N _ _ _ (onSurface_swap_xy N _ _ _ h)

theorem quarterTurn_inverse (axis : Axis) (d : ℤ) (p : Vec3) :
    (quarterTurn axis d).mulVec ((quarterTurn axis (-d)).mulVec p) = p := by
  rw [mat3_mulVec_mulVec, quarterTurn_add, neg_add_cancel, quarterTurn_zero, mat3_one_mulVec]

theorem quarterTurn_inverse_left (axis : Axis) (d : ℤ) (p : Vec3) :
    (quarterTurn axis (-d)).mulVec ((quarterTurn axis d).mulVec p) = p := by
  rw [mat3_mulVec_mulVec, quarterTurn_add, add_neg_cancel, quarterTurn_zero, mat3_one_mulVec]

theorem turnPos_injective (axis : Axis) (i d : ℤ) (N : ℕ) :
    Function.Injective (turnPos axis i d N) := by
  intro p q h
  unfold turnPos at h
  by_cases hp : posInSlice axis i N p = true <;> by_cases hq : posInSlice axis i N q = true
  · simp only [hp, hq, ↓reduceIte] at h
    rw [← quarterTurn_inverse_left axis d p, h, quarterTurn_inverse_left]
  · simp only [hp, hq, ↓reduceIte, Bool.false_eq_true] at h
    rw [← h, posInSlice_quarterTurn] at hq
    exact absurd hp hq
  · simp only [hp, hq, ↓reduceIte, Bool.false_eq_true] at h
    rw [h, posInSlice_quarterTurn] at hp
    exact absurd hq hp
  · simpa only [hp, hq, ↓reduceIte, Bool.false_eq_true] using h

theorem onSurface_turnPos (N M : ℕ) (axis : Axis) (i d : ℤ) (p : Vec3) (h : onSurface N p) :
    onSurface N (turnPos axis i d M p) := by
  unfold turnPos
  split
  · exact onSurface_quarterTurn N axis d p h
  · exact h

theorem turnPos_turnPos_neg (axis : Axis) (i d : ℤ) (N : ℕ) (p : Vec3) :
    turnPos axis i d N (turnPos axis i (-d) N p) = p := by
  unfold turnPos
  by_cases hp : posInSlice axis i N p = true
  · simp only [hp, ↓reduceIte, posInSlice_quarterTurn, quarterTurn_inverse]
  · simp only [hp, ↓reduceIte, Bool.false_eq_true]

theorem turnSlice_position (axis : Axis) (i d : ℤ) (N : ℕ) (c : Cubie) :
    (turnSlice axis i d N c).position = turnPos axis i d N c.position := by
  unfold turnSlice turnPos
  split <;> rfl

theorem positions_completeRotation (axis : Axis) (i d : ℤ) (N : ℕ) (cb : Option Callback)
    (w : World) (hw : Idle w) :
    positions (completeRotation axis i d N cb w) = (positions w).map (turnPos axis i d N) := by
  simp only [positions, completeRotation_cubies axis i d N cb w hw, List.map_map]
  apply List.map_congr_left
  intro c _
  exact turnSlice_position axis i d N c

theorem occupies_completeRotation (axis : Axis) (i d : ℤ) (N M : ℕ) (cb : Option Callback)
    (w : World) (hw : Occupies N w) : Occupies N (completeRotation axis i d M cb w) := by
  refine ⟨completeRotation_preserves_idle axis i d M cb w hw.idle, ?_, ?_⟩
  · rw [positions_completeRotation axis i d M cb w hw.idle]
    exact hw.nodup.map (turnPos_injective axis i d M)
  · intro p
    rw [positions_completeRotation axis i d M cb w hw.idle, List.mem_map]
    constructor
    · rintro ⟨q, hq, rfl⟩
      exact onSurface_turnPos N M axis i d q ((hw.mem q).mp hq)
    · intro hp
      refine ⟨turnPos axis i (-d) M p, (hw.mem _).mpr ?_, turnPos_turnPos_neg axis i d M p⟩
      exact onSurface_turnPos N M axis i (-d) p hp

theorem reached_occupies (N : ℕ) (w : World) (h : Reached N w) : Occupies N w := by
  induction h with
  | build w0 h0 => exact createCube_occupies N w0 h0
  | rotate w axis i d cb _ _ _ _ ih => exact occupies_completeRotation axis i d N N cb w ih

theorem getSlice_length_positions (axis : Axis) (i : ℤ) (N : ℕ) (w : World) (hw : Idle w) :
    (getSlice axis i N w).length = ((positions w).filter (posInSlice axis i N)).length := by
  rw [getSlice_idle axis i N w hw, positions, List.filter_map, List.length_map]
  rfl

/-- C4: in every state reached from `createCube(N)` by completed rotations, one more
completed rotation permutes the positions occupied by the pieces, so every slice query
`getSlice(axis2, layer2, N)` returns as many pieces after the rotation as before. -/
theorem rotation_keeps_slice_counts (N : ℕ) (w : World) (hw : Reached N w) (axis : Axis)
    (layerIndex direction : ℤ) (cb : Option Callback) :
    (positions (completeRotation axis layerIndex direction N cb w)).Perm (positions w)
    ∧ ∀ (axis2 : Axis) (layer2 : ℤ),
        (getSlice axis2 layer2 N (completeRotation axis layerIndex direction N cb w)).length
          = (getSlice axis2 layer2 N w).length := by
  have h1 := reached_occupies N w hw
  have h2 := occupies_completeRotation axis layerIndex direction N N cb w h1
  have hp : (positions (completeRotation axis layerIndex direction N cb w)).Perm (positions w) := by
    rw [List.perm_ext_iff_of_nodup h2.nodup h1.nodup]
    intro p
    rw [h2.mem, h1.mem]
  refine ⟨hp, ?_⟩
  intro axis2 layer2
  rw [getSlice_length_positions axis2 layer2 N _ h2.idle,
    getSlice_length_positions axis2 layer2 N _ h1.idle]
  exact (hp.filter _).length_eq

/-- Witness for C4: a second rotation after one rotation of the cube of size 3. -/
theorem rotation_keeps_slice_counts_witness :
    (positions (completeRotation Axis.x 0 1 3 none
        (completeRotation Axis.y 2 (-1) 3 none (createCube 3 World.initial)))).Perm
      (positions (completeRotation Axis.y 2 (-1) 3 none (createCube 3 World.initial)))
    ∧ ∀ (axis2 : Axis) (layer2 : ℤ),
        (getSlice axis2 layer2 3 (completeRotation Axis.x 0 1 3 none
          (completeRotation Axis.y 2 (-1) 3 none (createCube 3 World.initial)))).length
          = (getSlice axis2 layer2 3
              (completeRotation Axis.y 2 (-1) 3 none (createCube 3 World.initial))).length :=
  rotation_keeps_slice_counts 3 _
    (Reached.rotate _ Axis.y 2 (-1) none
      (Reached.build World.initial ⟨rfl, rfl, rfl, rfl, by simp [World.initial]⟩)
      (by decide) (by decide) (by decide))
    Axis.x 0 1 none

/-! ## The scramble sequence -/

theorem callEvents_append (a b : List Event) :
    callEvents (a ++ b) = callEvents a ++ callEvents b := by
  simp [callEvents]

theorem expectedCalls_append (N : ℕ) (moves : List Move) (k : ℕ) (a b : List Move) :
    expectedCalls N moves k (a ++ b)
      = expectedCalls N moves k a ++ expectedCalls N moves (k + a.length) b := by
  induction a generalizing k with
  | nil => simp [expectedCalls]
  | cons m a ih =>
    rw [show k + (m :: a).length = k + 1 + a.length by simp only [List.length_cons]; omega]
    simp only [List.cons_append, expectedCalls, List.cons.injEq, true_and]
    exact ih (k + 1)

theorem rotateSlice_unlocked (axis : Axis) (i d : ℤ) (N : ℕ) (cb : Callback) (w : World)
    (hl : w.isAnimating = false) :
    ((rotateSlice axis i d N (some cb) w).2 = some cb
      ∧ (rotateSlice axis i d N (some cb) w).1.isAnimating = false
      ∧ (rotateSlice axis i d N (some cb) w).1.tween = w.tween
      ∧ callEvents (rotateSlice axis i d N (some cb) w).1.trace
          = callEvents w.trace ++ [Event.rotateSlice axis i d N true, Event.onComplete cb])
    ∨ ((rotateSlice axis i d N (some cb) w).2 = none
      ∧ (rotateSlice axis i d N (some cb) w).1.isAnimating = true
      ∧ (∃ t, (rotateSlice axis i d N (some cb) w).1.tween = some t ∧ t.onComplete = some cb)
      ∧ callEvents (rotateSlice axis i d N (some cb) w).1.trace
          = callEvents w.trace ++ [Event.rotateSlice axis i d N true]) := by
  unfold rotateSlice
  simp only [hl, Bool.false_eq_true, ↓reduceIte]
  split
  · left
    refine ⟨rfl, rfl, rfl, ?_⟩
    simp [callEvents, isCallEvent]
  · right
    refine ⟨rfl, rfl, ⟨_, rfl, rfl⟩, ?_⟩
    simp [callEvents, isCallEvent]

theorem tweenComplete_pending (s : World) (t : Tween) (cb : Callback) (hs : s.tween = some t)
    (ht : t.onComplete = some cb) :
    (tweenComplete s).2 = some cb
    ∧ (tweenComplete s).1.isAnimating = false
    ∧ (tweenComplete s).1.tween = none
    ∧ callEvents (tweenComplete s).1.trace = callEvents s.trace ++ [Event.onComplete cb] := by
  unfold tweenComplete
  simp [hs, ht, callEvents, isCallEvent]

theorem take_succ_of_drop (moves : List Move) (j : ℕ) (m : Move) (rest : List Move)
    (h : moves.drop j = m :: rest) :
    moves.take (j + 1) = moves.take j ++ [m] ∧ moves.drop (j + 1) = rest
      ∧ j < moves.length ∧ (moves.take j).length = j
      ∧ moves.length - (rest.length + 1) = j := by
  have hlen : (moves.drop j).length = rest.length + 1 := by rw [h]; rfl
  rw [List.length_drop] at hlen
  have hj : j < moves.length := by omega
  refine ⟨?_, ?_, hj, ?_, by omega⟩
  · rw [List.take_succ, List.getElem?_eq_getElem hj]
    have : moves[j] = m := by
      have h2 := List.getElem_drop (L := moves) (i := j) (j := 0) (h := by simpa using hj)
      simp only [h, List.getElem_cons_zero, Nat.add_zero] at h2
      exact h2.symm
    simp [this]
  · have : moves.drop (j + 1) = (moves.drop j).drop 1 := by rw [List.drop_drop, Nat.add_comm]
    rw [this, h]; rfl
  · rw [List.length_take]; omega

theorem nextMoveFrom_spec (N : ℕ) (moves : List Move) (T0 : List Event) :
    ∀ (rest : List Move) (j : ℕ) (s : World), moves.drop j = rest → Ready N moves T0 j s →
      Done N moves T0 (nextMoveFrom N moves rest s)
        ∨ ∃ k, j ≤ k ∧ Pending N moves T0 k (nextMoveFrom N moves rest s) := by
  intro rest
  induction rest with
  | nil =>
    intro j s hd hr
    left
    obtain ⟨hj, hl, ht, hc⟩ := hr
    have hall : moves.take j = moves := by
      rw [List.drop_eq_nil_iff] at hd
      exact List.take_of_length_le hd
    refine ⟨hl, ht, ?_⟩
    simp only [nextMoveFrom, callEvents_append, hc, hall]
    simp [callEvents, isCallEvent]
  | cons m rest ih =>
    intro j s hd hr
    obtain ⟨hj, hl, ht, hc⟩ := hr
    obtain ⟨h1, h2, h3, h4, h5⟩ := take_succ_of_drop moves j m rest hd
    simp only [nextMoveFrom, h5]
    rcases rotateSlice_unlocked m.axis m.layerIndex m.direction N
        { moves := moves, currentMove := j, N := N } s hl with ⟨r2, rl, rt, rc⟩ | ⟨r2, rl, rt, rc⟩
    · have hready : Ready N moves T0 (j + 1)
          (rotateSlice m.axis m.layerIndex m.direction N
            (some { moves := moves, currentMove := j, N := N }) s).1 := by
        refine ⟨h3, rl, rt.trans ht, ?_⟩
        rw [rc, hc, h1, expectedCalls_append, h4]
        simp [expectedCalls]
      rcases ih (j + 1) _ h2 hready with hdone | ⟨k, hk, hp⟩
      · left
        revert hdone
        generalize rotateSlice m.axis m.layerIndex m.direction N
            (some { moves := moves, currentMove := j, N := N }) s = r at r2 ⊢
        obtain ⟨r1, ro⟩ := r
        simp only at r2
        subst r2
        exact id
      · right
        refine ⟨k, by omega, ?_⟩
        revert hp
        generalize rotateSlice m.axis m.layerIndex m.direction N
            (some { moves := moves, currentMove := j, N := N }) s = r at r2 ⊢
        obtain ⟨r1, ro⟩ := r
        simp only at r2
        subst r2
        exact id
    · right
      refine ⟨j, le_refl j, ?_⟩
      obtain ⟨t, ht1, ht2⟩ := rt
      have hpend : Pending N moves T0 j
          (rotateSlice m.axis m.layerIndex m.direction N
            (some { moves := moves, currentMove := j, N := N }) s).1 :=
        ⟨m, rest, t, hd, rl, ht1, ht2, by rw [rc, hc]⟩
      revert hpend
      generalize rotateSlice m.axis m.layerIndex m.direction N
          (some { moves := moves, currentMove := j, N := N }) s = r at r2 ⊢
      obtain ⟨r1, ro⟩ := r
      simp only at r2
      subst r2
      exact id

theorem tick_of_pending (N : ℕ) (moves : List Move) (T0 : List Event) (j : ℕ) (s : World)
    (h : Pending N moves T0 j s) :
    Done N moves T0 (tick s) ∨ ∃ k, j + 1 ≤ k ∧ Pending N moves T0 k (tick s) := by
  obtain ⟨m, rest, t, hd, hl, ht, hcb, hc⟩ := h
  obtain ⟨c2, cl, ct, cc⟩ := tweenComplete_pending s t _ ht hcb
  obtain ⟨h1, h2, h3, h4, h5⟩ := take_succ_of_drop moves j m rest hd
  have hready : Ready N moves T0 (j + 1) (tweenComplete s).1 := by
    refine ⟨h3, cl, ct, ?_⟩
    rw [cc, hc, h1, expectedCalls_append, h4]
    simp [expectedCalls]
  have ht : tick s = nextMoveFrom N moves (moves.drop (j + 1)) (tweenComplete s).1 := by
    unfold tick
    revert c2
    generalize tweenComplete s = r
    obtain ⟨r1, ro⟩ := r
    intro c2
    simp only at c2
    subst c2
    rfl
  rw [ht]
  exact nextMoveFrom_spec N moves T0 _ (j + 1) _ rfl hready

theorem tick_of_done (N : ℕ) (moves : List Move) (T0 : List Event) (s : World)
    (h : Done N moves T0 s) : tick s = s := by
  unfold tick
  rw [tweenComplete_none s h.2.1]

theorem runTicks_done (N : ℕ) (moves : List Move) (T0 : List Event) :
    ∀ (n : ℕ) (s : World),
      (Done N moves T0 s ∨ ∃ j, moves.length ≤ j + n ∧ Pending N moves T0 j s) →
      Done N moves T0 (runTicks n s) := by
  intro n
  induction n with
  | zero =>
    rintro s (h | ⟨j, hj, hp⟩)
    · exact h
    · obtain ⟨m, rest, t, hd, _⟩ := hp
      have := (take_succ_of_drop moves j m rest hd).2.2.1
      omega
  | succ n ih =>
    rintro s (h | ⟨j, hj, hp⟩)
    · rw [runTicks, tick_of_done N moves T0 s h]
      exact ih s (Or.inl h)
    · rw [runTicks]
      apply ih
      rcases tick_of_pending N moves T0 j s hp with hdone | ⟨k, hk, hpk⟩
      · exact Or.inl hdone
      · exact Or.inr ⟨k, by omega, hpk⟩

theorem genMoves_length (N : ℕ) (rand : ℕ → ℚ) : (genMoves N rand).length = 3 * N ^ 2 := by
  simp only [genMoves, List.length_map, List.length_range]
  ring

theorem rotateCalls_callEvents (a : Bool) (t : List Event) :
    rotateCalls a (callEvents t) = rotateCalls a t := by
  simp only [rotateCalls, callEvents, List.filter_filter]
  congr 2
  funext e
  cases e <;> simp [isCallEvent, isRotateCall]

theorem rotateCalls_append (a : Bool) (s t : List Event) :
    rotateCalls a (s ++ t) = rotateCalls a s + rotateCalls a t := by
  simp [rotateCalls]

theorem rotateCalls_expected (N : ℕ) (moves : List Move) (k : ℕ) (ms : List Move) :
    rotateCalls true (expectedCalls N moves k ms) = ms.length
      ∧ rotateCalls false (expectedCalls N moves k ms) = 0 := by
  induction ms generalizing k with
  | nil => exact ⟨rfl, rfl⟩
  | cons m ms ih =>
    obtain ⟨h1, h2⟩ := ih (k + 1)
    have e : expectedCalls N moves k (m :: ms)
        = [Event.rotateSlice m.axis m.layerIndex m.direction N true,
            Event.onComplete { moves := moves, currentMove := k, N := N }]
          ++ expectedCalls N moves (k + 1) ms := rfl
    rw [e, rotateCalls_append, rotateCalls_append, h1, h2]
    constructor
    · have : rotateCalls true [Event.rotateSlice m.axis m.layerIndex m.direction N true,
          Event.onComplete { moves := moves, currentMove := k, N := N }] = 1 := rfl
      rw [this, List.length_cons]; omega
    · rfl

/-- C10: `scrambleCube` invoked with the lock clear, for any current size `N` and any
values of `Math.random()`, makes exactly `3 * N ^ 2` calls of `rotateSlice`, all of them
accepted.  Once every tween has completed, the calls recorded are, in order, for each
move `k` the accepted call for move `k` followed by the call of its completion callback
(so the call for move `k + 1` comes right after the callback of move `k`), then the end
of the scramble; the lock is clear and further frames change nothing. -/
theorem scrambleCube_sequence (rand : ℕ → ℚ) (w : World) (hl : w.isAnimating = false)
    (ht : w.tween = none) :
    (genMoves w.currentSize rand).length = 3 * w.currentSize ^ 2
    ∧ callEvents (runTicks (3 * w.currentSize ^ 2) (scrambleCube rand w)).trace
        = callEvents w.trace
          ++ expectedCalls w.currentSize (genMoves w.currentSize rand) 0
              (genMoves w.currentSize rand)
          ++ [Event.scrambleComplete]
    ∧ rotateCalls true (runTicks (3 * w.currentSize ^ 2) (scrambleCube rand w)).trace
        = rotateCalls true w.trace + 3 * w.currentSize ^ 2
    ∧ rotateCalls false (runTicks (3 * w.currentSize ^ 2) (scrambleCube rand w)).trace
        = rotateCalls false w.trace
    ∧ (runTicks (3 * w.currentSize ^ 2) (scrambleCube rand w)).isAnimating = false
    ∧ tick (runTicks (3 * w.currentSize ^ 2) (scrambleCube rand w))
        = runTicks (3 * w.currentSize ^ 2) (scrambleCube rand w) := by
  have hlen := genMoves_length w.currentSize rand
  have hready : Ready w.currentSize (genMoves w.currentSize rand) (callEvents w.trace) 0 w :=
    ⟨Nat.zero_le _, hl, ht, by simp [expectedCalls]⟩
  have hstart : scrambleCube rand w
      = nextMoveFrom w.currentSize (genMoves w.currentSize rand)
          ((genMoves w.currentSize rand).drop 0) w := by
    simp [scrambleCube, hl, nextMove]
  have hdone : Done w.currentSize (genMoves w.currentSize rand) (callEvents w.trace)
      (runTicks (3 * w.currentSize ^ 2) (scrambleCube rand w)) := by
    apply runTicks_done
    rw [hstart]
    rcases nextMoveFrom_spec w.currentSize (genMoves w.currentSize rand) (callEvents w.trace)
        _ 0 w rfl hready with h | ⟨k, _, hk⟩
    · exact Or.inl h
    · exact Or.inr ⟨k, by omega, hk⟩
  have hT := hdone.2.2
  have hexp := rotateCalls_expected w.currentSize (genMoves w.currentSize rand) 0
    (genMoves w.currentSize rand)
  refine ⟨hlen, hT, ?_, ?_, hdone.1, tick_of_done _ _ _ _ hdone⟩
  · rw [← rotateCalls_callEvents, hT, rotateCalls_append, rotateCalls_append,
      rotateCalls_callEvents, hexp.1, hlen]
    rfl
  · rw [← rotateCalls_callEvents, hT, rotateCalls_append, rotateCalls_append,
      rotateCalls_callEvents, hexp.2]
    rfl

/-- Witness for C10: the cube of size 3 with every random value `0`. -/
theorem scrambleCube_sequence_witness :
    rotateCalls true (runTicks (3 * (createCube 3 World.initial).currentSize ^ 2)
        (scrambleCube (fun _ => 0) (createCube 3 World.initial))).trace
      = rotateCalls true (createCube 3 World.initial).trace
        + 3 * (createCube 3 World.initial).currentSize ^ 2 :=
  (scrambleCube_sequence (fun _ => 0) (createCube 3 World.initial) rfl rfl).2.2.1

/-! ## Claims about the build -/

theorem createCube_cubies (N : ℕ) (w0 : World) :
    (createCube N w0).cubies = (gridList N).map (cubieAt N) :=
  buildCubies_eq N

theorem createCube_logicPos (N : ℕ) (w0 : World) :
    (createCube N w0).cubies.map (fun c => c.currentLogicPos) = gridList N := by
  rw [createCube_cubies, List.map_map]
  conv_rhs => rw [← List.map_id (gridList N)]
  apply List.map_congr_left
  intro g _
  rfl

theorem mem_createCube (N : ℕ) (w0 : World) (c : Cubie) :
    c ∈ (createCube N w0).cubies ↔
      c.currentLogicPos ∈ gridList N
        ∧ c = mkCubie N c.currentLogicPos.1 c.currentLogicPos.2.1 c.currentLogicPos.2.2 := by
  rw [createCube_cubies, List.mem_map]
  constructor
  · rintro ⟨g, hg, rfl⟩
    exact ⟨hg, rfl⟩
  · rintro ⟨hg, hc⟩
    exact ⟨c.currentLogicPos, hg, hc.symm⟩

set_option maxRecDepth 100000 in
theorem gridList_length (N : ℕ) (hN : 2 ≤ N ∧ N ≤ 10) :
    (gridList N).length = N ^ 3 - (N - 2) ^ 3 := by
  obtain ⟨h1, h2⟩ := hN
  interval_cases N <;> decide

/-- C11: for `N` in `[2,10]`, after `createCube(N)` the piece collection holds exactly
`N ^ 3 - (N - 2) ^ 3` pieces (8 for `N = 2`, 26 for `N = 3`), and the grid coordinates
the pieces were built from are pairwise different. -/
theorem createCube_piece_count (N : ℕ) (hN : 2 ≤ N ∧ N ≤ 10) (w0 : World) :
    (createCube N w0).cubies.length = N ^ 3 - (N - 2) ^ 3
    ∧ ((createCube N w0).cubies.map fun c => c.currentLogicPos).Nodup
    ∧ (N = 2 → (createCube N w0).cubies.length = N ^ 3)
    ∧ (N = 3 → (createCube N w0).cubies.length = 26) := by
  have hlen : (createCube N w0).cubies.length = N ^ 3 - (N - 2) ^ 3 := by
    rw [createCube_cubies, List.length_map, gridList_length N hN]
  refine ⟨hlen, ?_, ?_, ?_⟩
  · rw [createCube_logicPos]
    exact nodup_gridList N
  · rintro rfl
    rw [hlen]; rfl
  · rintro rfl
    rw [hlen]; rfl

/-- Witness for C11: the cube of size 3. -/
theorem createCube_piece_count_witness :
    (createCube 3 World.initial).cubies.length = 3 ^ 3 - (3 - 2) ^ 3
    ∧ ((createCube 3 World.initial).cubies.map fun c => c.currentLogicPos).Nodup
    ∧ (3 = 2 → (createCube 3 World.initial).cubies.length = 3 ^ 3)
    ∧ (3 = 3 → (createCube 3 World.initial).cubies.length = 26) :=
  createCube_piece_count 3 (by decide) World.initial

theorem colour_ne_inner :
    CUBE_COLORS.RIGHT ≠ CUBE_COLORS.INNER ∧ CUBE_COLORS.LEFT ≠ CUBE_COLORS.INNER
    ∧ CUBE_COLORS.UP ≠ CUBE_COLORS.INNER ∧ CUBE_COLORS.DOWN ≠ CUBE_COLORS.INNER
    ∧ CUBE_COLORS.FRONT ≠ CUBE_COLORS.INNER ∧ CUBE_COLORS.BACK ≠ CUBE_COLORS.INNER := by
  decide

theorem ite_colour_eq (p : Prop) [Decidable p] (col : ℕ) (h : col ≠ CUBE_COLORS.INNER) :
    ((if p then col else CUBE_COLORS.INNER) = col ↔ p)
    ∧ ((if p then col else CUBE_COLORS.INNER) = CUBE_COLORS.INNER ↔ ¬ p) := by
  by_cases hp : p
  · simp [hp, h]
  · simp [hp, h, Ne.symm h]

/-- C12: every piece `createCube(N)` builds from grid coordinate `(x, y, z)` has six
face colours fixed by that coordinate: the +X face is `RIGHT` iff `x = N - 1`, the -X
face `LEFT` iff `x = 0`, the +Y face `UP` iff `y = N - 1`, the -Y face `DOWN` iff
`y = 0`, the +Z face `FRONT` iff `z = N - 1`, the -Z face `BACK` iff `z = 0`, and a face
that has not its puzzle colour has `INNER`; so a piece carries a puzzle colour on an
axis iff its coordinate on that axis is `0` or `N - 1`. -/
theorem createCube_face_colours (N : ℕ) (w0 : World) (c : Cubie)
    (hc : c ∈ (createCube N w0).cubies) :
    c.materials.length = 6
    ∧ (c.materials[0]? = some CUBE_COLORS.RIGHT ↔ c.currentLogicPos.1 = N - 1)
    ∧ (c.materials[0]? = some CUBE_COLORS.INNER ↔ ¬ c.currentLogicPos.1 = N - 1)
    ∧ (c.materials[1]? = some CUBE_COLORS.LEFT ↔ c.currentLogicPos.1 = 0)
    ∧ (c.materials[1]? = some CUBE_COLORS.INNER ↔ ¬ c.currentLogicPos.1 = 0)
    ∧ (c.materials[2]? = some CUBE_COLORS.UP ↔ c.currentLogicPos.2.1 = N - 1)
    ∧ (c.materials[2]? = some CUBE_COLORS.INNER ↔ ¬ c.currentLogicPos.2.1 = N - 1)
    ∧ (c.materials[3]? = some CUBE_COLORS.DOWN ↔ c.currentLogicPos.2.1 = 0)
    ∧ (c.materials[3]? = some CUBE_COLORS.INNER ↔ ¬ c.currentLogicPos.2.1 = 0)
    ∧ (c.materials[4]? = some CUBE_COLORS.FRONT ↔ c.currentLogicPos.2.2 = N - 1)
    ∧ (c.materials[4]? = some CUBE_COLORS.INNER ↔ ¬ c.currentLogicPos.2.2 = N - 1)
    ∧ (c.materials[5]? = some CUBE_COLORS.BACK ↔ c.currentLogicPos.2.2 = 0)
    ∧ (c.materials[5]? = some CUBE_COLORS.INNER ↔ ¬ c.currentLogicPos.2.2 = 0)
    ∧ ((c.materials[0]? ≠ some CUBE_COLORS.INNER ∨ c.materials[1]? ≠ some CUBE_COLORS.INNER)
        ↔ (c.currentLogicPos.1 = 0 ∨ c.currentLogicPos.1 = N - 1))
    ∧ ((c.materials[2]? ≠ some CUBE_COLORS.INNER ∨ c.materials[3]? ≠ some CUBE_COLORS.INNER)
        ↔ (c.currentLogicPos.2.1 = 0 ∨ c.currentLogicPos.2.1 = N - 1))
    ∧ ((c.materials[4]? ≠ some CUBE_COLORS.INNER ∨ c.materials[5]? ≠ some CUBE_COLORS.INNER)
        ↔ (c.currentLogicPos.2.2 = 0 ∨ c.currentLogicPos.2.2 = N - 1)) := by
  obtain ⟨_, he⟩ := (mem_createCube N w0 c).mp hc
  obtain ⟨h1, h2, h3, h4, h5, h6⟩ := colour_ne_inner
  generalize c.currentLogicPos.1 = x at he ⊢
  generalize c.currentLogicPos.2.1 = y at he ⊢
  generalize c.currentLogicPos.2.2 = z at he ⊢
  subst he
  simp only [mkCubie, List.length_cons, List.length_nil, List.getElem?_cons_zero,
    List.getElem?_cons_succ, Option.some.injEq, ne_eq]
  have a1 := ite_colour_eq (x = N - 1) _ h1
  have a2 := ite_colour_eq (x = 0) _ h2
  have a3 := ite_colour_eq (y = N - 1) _ h3
  have a4 := ite_colour_eq (y = 0) _ h4
  have a5 := ite_colour_eq (z = N - 1) _ h5
  have a6 := ite_colour_eq (z = 0) _ h6
  refine ⟨trivial, a1.1, a1.2, a2.1, a2.2, a3.1, a3.2, a4.1, a4.2, a5.1, a5.2, a6.1, a6.2,
    ?_, ?_, ?_⟩
  · simp only [a1.2, a2.2, not_not]; exact or_comm
  · simp only [a3.2, a4.2, not_not]; exact or_comm
  · simp only [a5.2, a6.2, not_not]; exact or_comm

/-- Witness for C12: the corner piece at grid coordinate `(0, 0, 0)` of the cube of
size 3 has `LEFT` on its -X face. -/
theorem createCube_face_colours_witness :
    (mkCubie 3 0 0 0).materials[1]? = some CUBE_COLORS.LEFT ↔ (mkCubie 3 0 0 0).currentLogicPos.1 = 0 :=
  (createCube_face_colours 3 World.initial (mkCubie 3 0 0 0)
    ((mem_createCube 3 World.initial _).mpr ⟨by decide, rfl⟩)).2.2.2.1

theorem createOffset_eq (N : ℕ) :
    createOffset N = (((N : ℚ) + ((N : ℚ) - 1) * (5 / 100)) - 1) / 2 := by
  simp only [createOffset, PIECE_GAP]
  ring

theorem mkCubie_position (N x y z : ℕ) :
    (mkCubie N x y z).position
      = ⟨(x : ℚ) * (1 + 5 / 100) - (((N : ℚ) + ((N : ℚ) - 1) * (5 / 100)) - 1) / 2,
         (y : ℚ) * (1 + 5 / 100) - (((N : ℚ) + ((N : ℚ) - 1) * (5 / 100)) - 1) / 2,
         (z : ℚ) * (1 + 5 / 100) - (((N : ℚ) + ((N : ℚ) - 1) * (5 / 100)) - 1) / 2⟩ := by
  simp only [mkCubie, Cubie.position, createOffset_eq, PIECE_GAP]

/-- C13: `createCube(N)` places the piece built from grid coordinate `(x, y, z)` at
`(x * (1 + gap) - offset, y * (1 + gap) - offset, z * (1 + gap) - offset)` with
`gap = 0.05` and `offset = (span - 1) / 2`, `span = N + (N - 1) * gap`; for `N = 3`
the span is `3.10`, the offset `1.05`, and the piece of grid coordinate `(0, 0, 0)`
sits at `(-1.05, -1.05, -1.05)`. -/
theorem createCube_centering (N : ℕ) (w0 : World) :
    (∀ c ∈ (createCube N w0).cubies,
      c.position
        = ⟨(c.currentLogicPos.1 : ℚ) * (1 + 5 / 100)
              - (((N : ℚ) + ((N : ℚ) - 1) * (5 / 100)) - 1) / 2,
           (c.currentLogicPos.2.1 : ℚ) * (1 + 5 / 100)
              - (((N : ℚ) + ((N : ℚ) - 1) * (5 / 100)) - 1) / 2,
           (c.currentLogicPos.2.2 : ℚ) * (1 + 5 / 100)
              - (((N : ℚ) + ((N : ℚ) - 1) * (5 / 100)) - 1) / 2⟩)
    ∧ PIECE_GAP = 5 / 100
    ∧ ((3 : ℚ) + (3 - 1) * PIECE_GAP = 310 / 100)
    ∧ createOffset 3 = 105 / 100
    ∧ (∃ c ∈ (createCube 3 w0).cubies, c.currentLogicPos = (0, 0, 0)
        ∧ c.position = ⟨-(105 / 100), -(105 / 100), -(105 / 100)⟩) := by
  refine ⟨?_, rfl, by norm_num [PIECE_GAP], by norm_num [createOffset, PIECE_GAP], ?_⟩
  · intro c hc
    obtain ⟨_, he⟩ := (mem_createCube N w0 c).mp hc
    generalize c.currentLogicPos.1 = x at he ⊢
    generalize c.currentLogicPos.2.1 = y at he ⊢
    generalize c.currentLogicPos.2.2 = z at he ⊢
    subst he
    exact mkCubie_position N x y z
  · refine ⟨mkCubie 3 0 0 0, (mem_createCube 3 w0 _).mpr ⟨by decide, rfl⟩, rfl, ?_⟩
    rw [mkCubie_position]
    norm_num

theorem mkCubie_position_target (N x y z : ℕ) :
    (mkCubie N x y z).position = ⟨targetCoord x N, targetCoord y N, targetCoord z N⟩ := by
  simp only [mkCubie, Cubie.position, targetCoord, createOffset, Int.cast_natCast]
  congr 1 <;> ring

theorem sliceByGrid_createCube (axis : Axis) (i : ℤ) (N : ℕ) (w0 : World) :
    sliceByGrid axis i (createCube N w0)
      = ((gridList N).filter (gridInLayer axis i)).map (cubieAt N) := by
  simp only [sliceByGrid, createCube_cubies, List.filter_map]
  rfl

/-- C18: the target coordinate of `getSlice` is given by the centering formula of
`createCube`: for every `N` and integer `layerIndex` it is
`layerIndex * (1 + PIECE_GAP) - offset` with the `offset` of `createCube(N)`, so a piece
built from grid coordinate `(x, y, z)` sits at the target coordinates of `x`, `y`, `z`;
and on the cube just built by `createCube(N)` the selection by position returns exactly
the pieces whose build-time grid coordinate on the axis is the layer index. -/
theorem getSlice_refines_grid (N : ℕ) (axis : Axis) (layerIndex : ℤ) (w0 : World) :
    targetCoord layerIndex N = (layerIndex : ℚ) * (1 + PIECE_GAP) - createOffset N
    ∧ (∀ x y z : ℕ,
        (mkCubie N x y z).position = ⟨targetCoord x N, targetCoord y N, targetCoord z N⟩)
    ∧ getSlice axis layerIndex N (createCube N w0)
        = sliceByGrid axis layerIndex (createCube N w0) := by
  refine ⟨?_, mkCubie_position_target N, ?_⟩
  · simp only [targetCoord, createOffset]
    ring
  · rw [getSlice_createCube, sliceByGrid_createCube]

theorem filter_colour_cons (p : Prop) [Decidable p] (col : ℕ) (h : col ≠ CUBE_COLORS.INNER)
    (l : List ℕ) :
    (((if p then col else CUBE_COLORS.INNER) :: l).filter
        fun c => decide (c ≠ CUBE_COLORS.INNER)).length
      = (if p then 1 else 0) + (l.filter fun c => decide (c ≠ CUBE_COLORS.INNER)).length := by
  by_cases hp : p
  · simp only [hp, ↓reduceIte, List.filter_cons, h, ne_eq, not_false_eq_true, decide_True,
      List.length_cons]
    omega
  · simp [hp]

theorem puzzleFaces_mkCubie (N x y z : ℕ) :
    puzzleFaces (mkCubie N x y z)
      = (if x = N - 1 then 1 else 0) + ((if x = 0 then 1 else 0)
        + ((if y = N - 1 then 1 else 0) + ((if y = 0 then 1 else 0)
        + ((if z = N - 1 then 1 else 0) + ((if z = 0 then 1 else 0) + 0))))) := by
  obtain ⟨h1, h2, h3, h4, h5, h6⟩ := colour_ne_inner
  simp only [puzzleFaces, mkCubie]
  rw [filter_colour_cons _ _ h1, filter_colour_cons _ _ h2, filter_colour_cons _ _ h3,
    filter_colour_cons _ _ h4, filter_colour_cons _ _ h5, filter_colour_cons _ _ h6]
  rfl

theorem materials_inner_iff (N x y z : ℕ) :
    (mkCubie N x y z).materials = List.replicate 6 CUBE_COLORS.INNER
      ↔ (¬ x = N - 1 ∧ ¬ x = 0 ∧ ¬ y = N - 1 ∧ ¬ y = 0 ∧ ¬ z = N - 1 ∧ ¬ z = 0) := by
  obtain ⟨h1, h2, h3, h4, h5, h6⟩ := colour_ne_inner
  simp only [mkCubie, List.replicate, List.cons.injEq, and_true,
    (ite_colour_eq (x = N - 1) _ h1).2, (ite_colour_eq (x = 0) _ h2).2,
    (ite_colour_eq (y = N - 1) _ h3).2, (ite_colour_eq (y = 0) _ h4).2,
    (ite_colour_eq (z = N - 1) _ h5).2, (ite_colour_eq (z = 0) _ h6).2]

/-- C20: for `N ≥ 1` the grid coordinates `createCube(N)` skips are exactly those whose
piece would have `INNER` on all six faces; a coordinate of `[0,N)^3` is built iff one of
`x`, `y`, `z` is `0` or `N - 1`; and for `N ≥ 2` every piece of the collection has
between one and three faces with a puzzle colour. -/
theorem createCube_skips_colourless (N : ℕ) (hN : 1 ≤ N) :
    (∀ x y z : ℕ, x < N → y < N → z < N →
      (skipInner N x y z = true
        ↔ (mkCubie N x y z).materials = List.replicate 6 CUBE_COLORS.INNER))
    ∧ (∀ x y z : ℕ, x < N → y < N → z < N →
      ((x, y, z) ∈ gridList N
        ↔ (x = 0 ∨ x = N - 1 ∨ y = 0 ∨ y = N - 1 ∨ z = 0 ∨ z = N - 1)))
    ∧ (2 ≤ N → ∀ (w0 : World), ∀ c ∈ (createCube N w0).cubies,
        1 ≤ puzzleFaces c ∧ puzzleFaces c ≤ 3) := by
  refine ⟨?_, ?_, ?_⟩
  · intro x y z hx hy hz
    rw [materials_inner_iff, ← Bool.not_eq_false, skipInner_eq_false_iff]
    omega
  · intro x y z hx hy hz
    rw [mem_gridList, skipInner_eq_false_iff]
    simp only [hx, hy, hz, true_and]
    omega
  · intro h2 w0 c hc
    obtain ⟨hg, he⟩ := (mem_createCube N w0 c).mp hc
    rw [mem_gridList, skipInner_eq_false_iff] at hg
    generalize c.currentLogicPos.1 = x at he hg
    generalize c.currentLogicPos.2.1 = y at he hg
    generalize c.currentLogicPos.2.2 = z at he hg
    subst he
    rw [puzzleFaces_mkCubie]
    split_ifs <;> omega

/-- Witness for C20: the cube of size 3. -/
theorem createCube_skips_colourless_witness :
    (∀ x y z : ℕ, x < 3 → y < 3 → z < 3 →
      (skipInner 3 x y z = true
        ↔ (mkCubie 3 x y z).materials = List.replicate 6 CUBE_COLORS.INNER))
    ∧ (∀ x y z : ℕ, x < 3 → y < 3 → z < 3 →
      ((x, y, z) ∈ gridList 3
        ↔ (x = 0 ∨ x = 3 - 1 ∨ y = 0 ∨ y = 3 - 1 ∨ z = 0 ∨ z = 3 - 1)))
    ∧ (2 ≤ 3 → ∀ (w0 : World), ∀ c ∈ (createCube 3 w0).cubies,
        1 ≤ puzzleFaces c ∧ puzzleFaces c ≤ 3) :=
  createCube_skips_colourless 3 (by decide)

/-! ## Claims about reset, the boundary entry points, frame and move generation -/

theorem completeRotation_currentSize (axis : Axis) (i d : ℤ) (N : ℕ) (cb : Option Callback)
    (w : World) (hw : Idle w) : (completeRotation axis i d N cb w).currentSize = w.currentSize := by
  rw [completeRotation_idle axis i d N cb w hw]

theorem reached_currentSize (N : ℕ) (w : World) (h : Reached N w) : w.currentSize = N := by
  induction h with
  | build w0 h0 => rfl
  | rotate w axis i d cb hw _ _ _ ih =>
    rw [completeRotation_currentSize axis i d N cb w (reached_occupies N w hw).idle, ih]

theorem solveCube_unlocked (w : World) (hl : w.isAnimating = false) :
    solveCube w = createCube w.currentSize { w with trace := w.trace ++ [Event.solving] } := by
  simp [solveCube, hl]

/-- C14: `solveCube` invoked with the lock clear, in a state reached from
`createCube(N)` by completed rotations, leaves the piece collection `createCube(N)`
produces on a fresh start: the same pieces in the same order, hence the same number
(26 for `N = 3`), each at its build position with identity orientation, a child of the
cube root, with the face colours of the build rule for its grid coordinate. -/
theorem solveCube_rebuilds (N : ℕ) (w : World) (hw : Reached N w) :
    (solveCube w).cubies = (createCube N World.initial).cubies
    ∧ (solveCube w).cubies.length = (createCube N World.initial).cubies.length
    ∧ (N = 3 → (solveCube w).cubies.length = 26)
    ∧ (∀ c ∈ (solveCube w).cubies,
        c = mkCubie N c.currentLogicPos.1 c.currentLogicPos.2.1 c.currentLogicPos.2.2
        ∧ c.matrix.lin = Mat3.one ∧ c.parent = Parent.cubeGroup)
    ∧ (solveCube w).currentSize = N
    ∧ Idle (solveCube w) := by
  have hI := (reached_occupies N w hw).idle
  have hs := reached_currentSize N w hw
  have e : solveCube w = createCube N { w with trace := w.trace ++ [Event.solving] } := by
    rw [solveCube_unlocked w hI.lock, hs]
  have hc : (solveCube w).cubies = (createCube N World.initial).cubies := by rw [e]; rfl
  refine ⟨hc, by rw [hc], ?_, ?_, by rw [e]; rfl, ?_⟩
  · rintro rfl
    rw [hc, createCube_cubies, List.length_map, gridList_length 3 (by decide)]
    rfl
  · intro c hcm
    rw [hc] at hcm
    obtain ⟨_, he⟩ := (mem_createCube N World.initial c).mp hcm
    refine ⟨he, ?_, createCube_parents N World.initial c hcm⟩
    rw [he]
    rfl
  · rw [e]
    exact createCube_idle N _ ⟨hI.lock, hI.noTween, hI.noPivot, hI.root, hI.parents⟩

/-- Witness for C14: the cube of size 3 after one completed rotation. -/
theorem solveCube_rebuilds_witness :
    (solveCube (completeRotation Axis.x 0 1 3 none (createCube 3 World.initial))).cubies
      = (createCube 3 World.initial).cubies :=
  (solveCube_rebuilds 3 _
    (Reached.rotate _ Axis.x 0 1 none
      (Reached.build World.initial ⟨rfl, rfl, rfl, rfl, by simp [World.initial]⟩)
      (by decide) (by decide) (by decide))).1

/-- C15: while `isAnimating` is true, `scrambleCube`, `solveCube` and `handleSizeChange`
return with the globals as they were (no rebuild, no rotation issued, same pieces, size
and lock); `handleSizeChange` only writes `currentSize` back to the input and does not
call `createCube`. -/
theorem entry_points_blocked (w : World) (h : w.isAnimating = true) (rand : ℕ → ℚ)
    (parsed : Option ℤ) :
    scrambleCube rand w = w
    ∧ solveCube w = w
    ∧ handleSizeChange parsed w = SizeOutcome.rejected w.currentSize
    ∧ (handleSizeChange parsed w).world w = some w
    ∧ (handleSizeChange parsed w).createCubeArg = none := by
  have e : handleSizeChange parsed w = SizeOutcome.rejected w.currentSize := by
    simp [handleSizeChange, h]
  refine ⟨by simp [scrambleCube, h], by simp [solveCube, h], e, ?_, ?_⟩
  · rw [e]; rfl
  · rw [e]; rfl

theorem started_isAnimating :
    (rotateSlice Axis.x 0 1 3 none (createCube 3 World.initial)).1.isAnimating = true := by
  rw [rotateSlice_idle_nonempty Axis.x 0 1 3 none _
    (createCube_idle 3 World.initial ⟨rfl, rfl, rfl, rfl, by simp [World.initial]⟩)
    (by rw [getSlice_createCube]; decide)]

/-- Witness for C15: the entry points during the first rotation of a cube of size 3. -/
theorem entry_points_blocked_witness :
    scrambleCube (fun _ => 0) (rotateSlice Axis.x 0 1 3 none (createCube 3 World.initial)).1
        = (rotateSlice Axis.x 0 1 3 none (createCube 3 World.initial)).1
    ∧ solveCube (rotateSlice Axis.x 0 1 3 none (createCube 3 World.initial)).1
        = (rotateSlice Axis.x 0 1 3 none (createCube 3 World.initial)).1 :=
  ⟨(entry_points_blocked _ started_isAnimating (fun _ => 0) (some 5)).1,
    (entry_points_blocked _ started_isAnimating (fun _ => 0) (some 5)).2.1⟩

/-- The clamp of `handleSizeChange` on a value that parsed to an integer: the size
handed on is that integer brought into `[2,10]`. -/
theorem handleSizeChange_clamps (n : ℤ) (w : World) (hl : w.isAnimating = false) :
    (∀ N, (handleSizeChange (some n) w).createCubeArg = some N →
        N = some (max 2 (min 10 n)) ∧ max 2 (min 10 n) ≠ w.currentSize)
    ∧ 2 ≤ max 2 (min 10 n) ∧ max 2 (min 10 n) ≤ 10
    ∧ (2 ≤ n → n ≤ 10 → max 2 (min 10 n) = n)
    ∧ (n < 2 → max 2 (min 10 n) = 2)
    ∧ (10 < n → max 2 (min 10 n) = 10) := by
  refine ⟨?_, by omega, by omega, by omega, by omega, by omega⟩
  intro N hN
  simp only [handleSizeChange, hl, Bool.false_eq_true, ↓reduceIte, mathMax, mathMin,
    Option.map_some', ne_eq, Option.some.injEq] at hN
  split at hN
  · simp only [SizeOutcome.createCubeArg, Option.some.injEq] at hN
    exact ⟨hN.symm, by assumption⟩
  · simp [SizeOutcome.createCubeArg] at hN

/-- C16 (code at the failing input): with the lock clear, a value of the size input
that `parseInt` turns into `NaN` passes the clamp unchanged, differs from `currentSize`,
and is handed to `createCube`, which so receives `NaN`. -/
theorem handleSizeChange_nan :
    handleSizeChange none (createCube 3 World.initial) = SizeOutcome.createCube none none
    ∧ (handleSizeChange none (createCube 3 World.initial)).createCubeArg = some none
    ∧ mathMax 2 (mathMin 10 none) = none := by
  refine ⟨?_, ?_, rfl⟩ <;> rfl

theorem turnSlice_fields (axis : Axis) (i d : ℤ) (N : ℕ) (c : Cubie) :
    (turnSlice axis i d N c).materials = c.materials
    ∧ (turnSlice axis i d N c).currentLogicPos = c.currentLogicPos
    ∧ (turnSlice axis i d N c).originalPos = c.originalPos := by
  unfold turnSlice
  split <;> exact ⟨rfl, rfl, rfl⟩

theorem rotateSlice_started_cubies (axis : Axis) (i d : ℤ) (N : ℕ) (cb : Option Callback)
    (w : World) (hw : Idle w) :
    (rotateSlice axis i d N cb w).1.cubies
      = w.cubies.map fun c =>
          if posInSlice axis i N c.position then { c with parent := Parent.pivot } else c := by
  by_cases he : getSlice axis i N w = []
  · rw [rotateSlice_idle_empty axis i d N cb w hw.lock he]
    rw [getSlice_idle axis i N w hw, List.filter_eq_nil_iff] at he
    conv_lhs => rw [← List.map_id w.cubies]
    apply List.map_congr_left
    intro c hc
    simp [he c hc]
  · rw [rotateSlice_idle_nonempty axis i d N cb w hw he]

theorem rotateSlice_started_cubeGroup (axis : Axis) (i d : ℤ) (N : ℕ) (cb : Option Callback)
    (w : World) (hw : Idle w) : (rotateSlice axis i d N cb w).1.cubeGroup = w.cubeGroup := by
  by_cases he : getSlice axis i N w = []
  · rw [rotateSlice_idle_empty axis i d N cb w hw.lock he]
  · rw [rotateSlice_idle_nonempty axis i d N cb w hw he]

/-- C17: for a completed `rotateSlice` on an idle cube, every piece `getSlice` did not
select keeps its transform and its parent, the cube root; the cube root keeps its
position, rotation and scale, while the rotation runs and after; the collection holds
the same pieces in the same order (same colours and grid coordinates); while the
rotation runs the pieces whose parent is the pivot are exactly the selected ones, with
unchanged local matrix; after the commit every piece is a child of the cube root and
the pivot is gone. -/
theorem rotateSlice_frame (axis : Axis) (layerIndex direction : ℤ) (N : ℕ)
    (cb : Option Callback) (w : World) (hw : Idle w) :
    (∀ (k : ℕ) (c : Cubie), w.cubies[k]? = some c → c ∉ getSlice axis layerIndex N w →
        (completeRotation axis layerIndex direction N cb w).cubies[k]? = some c)
    ∧ (rotateSlice axis layerIndex direction N cb w).1.cubeGroup = w.cubeGroup
    ∧ (completeRotation axis layerIndex direction N cb w).cubeGroup = w.cubeGroup
    ∧ (completeRotation axis layerIndex direction N cb w).cubies.length = w.cubies.length
    ∧ (completeRotation axis layerIndex direction N cb w).cubies.map
          (fun c => (c.materials, c.currentLogicPos, c.originalPos))
        = w.cubies.map (fun c => (c.materials, c.currentLogicPos, c.originalPos))
    ∧ (∀ (k : ℕ) (c : Cubie), w.cubies[k]? = some c →
        ∃ c1, (rotateSlice axis layerIndex direction N cb w).1.cubies[k]? = some c1
          ∧ (c1.parent = Parent.pivot ↔ c ∈ getSlice axis layerIndex N w)
          ∧ c1.matrix = c.matrix)
    ∧ (∀ c ∈ (completeRotation axis layerIndex direction N cb w).cubies,
        c.parent = Parent.cubeGroup)
    ∧ (completeRotation axis layerIndex direction N cb w).pivot = none := by
  have hI := completeRotation_preserves_idle axis layerIndex direction N cb w hw
  have hc := completeRotation_cubies axis layerIndex direction N cb w hw
  have hmem : ∀ (k : ℕ) (c : Cubie), w.cubies[k]? = some c →
      (c ∈ getSlice axis layerIndex N w ↔ posInSlice axis layerIndex N c.position = true) := by
    intro k c hk
    rw [getSlice_idle axis layerIndex N w hw, List.mem_filter]
    exact ⟨fun h => h.2, fun h => ⟨List.getElem?_mem hk, h⟩⟩
  refine ⟨?_, rotateSlice_started_cubeGroup axis layerIndex direction N cb w hw, ?_, ?_, ?_, ?_,
    hI.parents, hI.noPivot⟩
  · intro k c hk hn
    have hp : posInSlice axis layerIndex N c.position = false := by
      rw [hmem k c hk] at hn
      simpa using hn
    rw [hc, List.getElem?_map, hk, Option.map_some', turnSlice_of_not axis _ _ N c hp]
  · rw [hI.root, hw.root]
  · rw [hc, List.length_map]
  · rw [hc, List.map_map]
    apply List.map_congr_left
    intro c _
    obtain ⟨h1, h2, h3⟩ := turnSlice_fields axis layerIndex direction N c
    simp only [Function.comp_apply, h1, h2, h3]
  · intro k c hk
    rw [rotateSlice_started_cubies axis layerIndex direction N cb w hw, List.getElem?_map, hk,
      Option.map_some']
    refine ⟨_, rfl, ?_, ?_⟩
    · rw [hmem k c hk]
      by_cases hp : posInSlice axis layerIndex N c.position = true
      · simp [hp]
      · have hpar := hw.parents c (List.getElem?_mem hk)
        simp [hp, hpar]
    · split <;> rfl

/-- Witness for C17: the layer `x = 0` of the cube of size 3, direction `+1`. -/
theorem rotateSlice_frame_witness :
    (completeRotation Axis.x 0 1 3 none (createCube 3 World.initial)).cubeGroup
      = (createCube 3 World.initial).cubeGroup :=
  (rotateSlice_frame Axis.x 0 1 3 none (createCube 3 World.initial)
    (createCube_idle 3 World.initial ⟨rfl, rfl, rfl, rfl, by simp [World.initial]⟩)).2.2.1

theorem axesAt_floor (r : ℚ) (h0 : 0 ≤ r) (h1 : r < 1) :
    axesAt ⌊r * 3⌋ = Axis.x ∨ axesAt ⌊r * 3⌋ = Axis.y ∨ axesAt ⌊r * 3⌋ = Axis.z := by
  have hlo : 0 ≤ ⌊r * 3⌋ := Int.floor_nonneg.mpr (by linarith)
  have hhi : ⌊r * 3⌋ < 3 := Int.floor_lt.mpr (by push_cast; linarith)
  unfold axesAt
  have : ⌊r * 3⌋ = 0 ∨ ⌊r * 3⌋ = 1 ∨ ⌊r * 3⌋ = 2 := by omega
  rcases this with h | h | h <;> simp [h]

theorem layer_floor (r : ℚ) (N : ℕ) (hN : 0 < N) (h0 : 0 ≤ r) (h1 : r < 1) :
    0 ≤ ⌊r * N⌋ ∧ ⌊r * N⌋ < N := by
  have hNq : (0 : ℚ) < N := by exact_mod_cast hN
  constructor
  · exact Int.floor_nonneg.mpr (mul_nonneg h0 hNq.le)
  · rw [Int.floor_lt]
    push_cast
    nlinarith

/-- C19: for any size `N` and any values of `Math.random()` in `[0,1)`, the list of
moves `scrambleCube` generates has length `3 * N ^ 2`, every move has an axis among
`x`, `y`, `z`, an integer layer index in `[0,N)` and direction `+1` or `-1`; and with
the lock clear `scrambleCube` hands the complete list to the first `nextMove`, so the
list is generated before the first rotation is issued. -/
theorem genMoves_valid (N : ℕ) (rand : ℕ → ℚ) (hr : ∀ k, 0 ≤ rand k ∧ rand k < 1) :
    (genMoves N rand).length = 3 * N ^ 2
    ∧ (∀ m ∈ genMoves N rand,
        (m.axis = Axis.x ∨ m.axis = Axis.y ∨ m.axis = Axis.z)
        ∧ 0 ≤ m.layerIndex ∧ m.layerIndex < N
        ∧ (m.direction = 1 ∨ m.direction = -1))
    ∧ (∀ w : World, w.isAnimating = false → w.currentSize = N →
        scrambleCube rand w = nextMove N (genMoves N rand) 0 w) := by
  refine ⟨genMoves_length N rand, ?_, ?_⟩
  · intro m hm
    simp only [genMoves, List.mem_map, List.mem_range] at hm
    obtain ⟨i, hi, rfl⟩ := hm
    have hN : 0 < N := by
      rcases Nat.eq_zero_or_pos N with h | h
      · subst h; simp at hi
      · exact h
    obtain ⟨a0, a1⟩ := hr (3 * i)
    obtain ⟨b0, b1⟩ := hr (3 * i + 1)
    refine ⟨axesAt_floor _ a0 a1, (layer_floor _ N hN b0 b1).1, (layer_floor _ N hN b0 b1).2, ?_⟩
    simp only [genMove]
    split
    · exact Or.inl rfl
    · exact Or.inr rfl
  · intro w hl hs
    simp [scrambleCube, hl, hs]

/-- Witness for C19: the cube of size 3 with every random value `0`. -/
theorem genMoves_valid_witness :
    (genMoves 3 (fun _ => 0)).length = 3 * 3 ^ 2
    ∧ (∀ m ∈ genMoves 3 (fun _ => 0),
        (m.axis = Axis.x ∨ m.axis = Axis.y ∨ m.axis = Axis.z)
        ∧ 0 ≤ m.layerIndex ∧ m.layerIndex < (3 : ℕ)
        ∧ (m.direction = 1 ∨ m.direction = -1))
    ∧ (∀ w : World, w.isAnimating = false → w.currentSize = 3 →
        scrambleCube (fun _ => 0) w = nextMove 3 (genMoves 3 (fun _ => 0)) 0 w) :=
  genMoves_valid 3 (fun _ => 0) (fun _ => ⟨le_refl 0, by norm_num⟩)

/-! ## The rotation in double precision -/

theorem toRat_neg (a : Dyadic) : a.neg.toRat = -a.toRat := by
  simp [Dyadic.neg, Dyadic.toRat]

/-- The exact quarter turn on doubles is the rotation `quarterTurn` of the exact
embedding. -/
theorem exactTurnD_toVec3 (axis : Axis) (direction : Quarter) (p : DVec) :
    (exactTurnD axis direction p).toVec3
      = (quarterTurn axis direction.toInt).mulVec p.toVec3 := by
  cases axis <;> cases direction <;>
    simp [exactTurnD, DVec.toVec3, quarterTurn, Quarter.toInt, Mat3.mulVec, Vec3.dot, cosQ, sinQ,
      toRat_neg, Mat3.one]

set_option maxRecDepth 100000 in
/-- C3 (as stated) fails in the arithmetic of the program: for `N = 3`, axis `x`,
layer `0`, direction `+1`, the piece built at grid coordinate `(0, 0, 0)` sits at
`p = (-1.05, -1.05, -1.05)`, is selected, and after the completed rotation sits at
`(-1.05, 1.0499999999999998, -1.0500000000000003)`, which is not the point
`R p = (-1.05, 1.05, -1.05)` of the exact quarter turn. -/
theorem rotateSlice_double_position :
    (buildPositionsD 3)[0]?
        = some ⟨(Dyadic.ofFrac 105 100).neg, (Dyadic.ofFrac 105 100).neg,
            (Dyadic.ofFrac 105 100).neg⟩
    ∧ inSliceD Axis.x 0 3 ⟨(Dyadic.ofFrac 105 100).neg, (Dyadic.ofFrac 105 100).neg,
        (Dyadic.ofFrac 105 100).neg⟩ = true
    ∧ (rotateSliceD Axis.x 0 Quarter.plus 3 (buildPositionsD 3))[0]?
        = some ⟨(Dyadic.ofFrac 105 100).neg,
            Dyadic.ofFrac 10499999999999998 10000000000000000,
            (Dyadic.ofFrac 10500000000000003 10000000000000000).neg⟩
    ∧ exactTurnD Axis.x Quarter.plus ⟨(Dyadic.ofFrac 105 100).neg,
          (Dyadic.ofFrac 105 100).neg, (Dyadic.ofFrac 105 100).neg⟩
        = ⟨(Dyadic.ofFrac 105 100).neg, Dyadic.ofFrac 105 100, (Dyadic.ofFrac 105 100).neg⟩
    ∧ (rotateSliceD Axis.x 0 Quarter.plus 3 (buildPositionsD 3))[0]?
        ≠ (buildPositionsD 3)[0]?.map (exactTurnD Axis.x Quarter.plus) := by
  decide

set_option maxRecDepth 100000 in
/-- C5 (as stated) fails in the arithmetic of the program: for `N = 3`, axis `y`,
layer `2`, four completed rotations with direction `+1` do not restore the positions;
the piece built at grid coordinate `(0, 2, 0)`, selected at `(-1.05, 1.05, -1.05)`,
ends at `(-1.0499999999999992, 1.05, -1.050000000000001)`. -/
theorem rotateSlice_double_four_turns :
    (buildPositionsD 3)[6]?
        = some ⟨(Dyadic.ofFrac 105 100).neg, Dyadic.ofFrac 105 100,
            (Dyadic.ofFrac 105 100).neg⟩
    ∧ inSliceD Axis.y 2 3 ⟨(Dyadic.ofFrac 105 100).neg, Dyadic.ofFrac 105 100,
        (Dyadic.ofFrac 105 100).neg⟩ = true
    ∧ (rotateSliceD Axis.y 2 Quarter.plus 3 (rotateSliceD Axis.y 2 Quarter.plus 3
        (rotateSliceD Axis.y 2 Quarter.plus 3 (rotateSliceD Axis.y 2 Quarter.plus 3
          (buildPositionsD 3)))))[6]?
        = some ⟨(Dyadic.ofFrac 10499999999999992 10000000000000000).neg,
            Dyadic.ofFrac 105 100,
            (Dyadic.ofFrac 1050000000000001 1000000000000000).neg⟩
    ∧ rotateSliceD Axis.y 2 Quarter.plus 3 (rotateSliceD Axis.y 2 Quarter.plus 3
        (rotateSliceD Axis.y 2 Quarter.plus 3 (rotateSliceD Axis.y 2 Quarter.plus 3
          (buildPositionsD 3))))
        ≠ buildPositionsD 3 := by
  decide

set_option maxRecDepth 100000 in
/-- C6 (as stated) fails in the arithmetic of the program: for `N = 4`, axis `z`,
layer `1`, direction `-1`, the piece at
`(1.5750000000000002, 0.5249999999999999, -0.5250000000000001)` is selected and ends at
`(0.5250000000000002, -1.575, -0.5250000000000001)`; its squared distance from the
origin changes, both as an exact number and as `Vector3.lengthSq()` computes it
(`3.0318750000000008` before, `3.0318750000000003` after). -/
theorem rotateSlice_double_distance :
    (buildPositionsD 4)[49]?
        = some ⟨Dyadic.ofFrac 15750000000000002 10000000000000000,
            Dyadic.ofFrac 5249999999999999 10000000000000000,
            (Dyadic.ofFrac 5250000000000001 10000000000000000).neg⟩
    ∧ inSliceD Axis.z 1 4 ⟨Dyadic.ofFrac 15750000000000002 10000000000000000,
        Dyadic.ofFrac 5249999999999999 10000000000000000,
        (Dyadic.ofFrac 5250000000000001 10000000000000000).neg⟩ = true
    ∧ (rotateSliceD Axis.z 1 Quarter.minus 4 (buildPositionsD 4))[49]?
        = some ⟨Dyadic.ofFrac 5250000000000002 10000000000000000,
            (Dyadic.ofFrac 1575 1000).neg,
            (Dyadic.ofFrac 5250000000000001 10000000000000000).neg⟩
    ∧ (rotateSliceD Axis.z 1 Quarter.minus 4 (buildPositionsD 4)).map DVec.lengthSqExact
        ≠ (buildPositionsD 4).map DVec.lengthSqExact
    ∧ ((rotateSliceD Axis.z 1 Quarter.minus 4 (buildPositionsD 4))[49]?.map DVec.lengthSqD
        = some (Dyadic.ofFrac 30318750000000003 10000000000000000))
    ∧ ((buildPositionsD 4)[49]?.map DVec.lengthSqD
        = some (Dyadic.ofFrac 30318750000000008 10000000000000000)) := by
  decide
end Rubiks
